import Mathlib

/-!
Verification of the image-to-grid resampling engine of `Ginden/web-utils`
(`pixel-select`).  The engine exists in two revisions in the repository:
the live one local to `src/pixel-select/src/components/ImageImportModal.tsx`
(lines 645-826) and an older exported revision appended to
`src/pixel-select/src/App.tsx` (lines 239-424).  The two differ only in
`bilinearSample`: the ImageImportModal revision fetches its four taps through
the clamping `readPixel`, while the App.tsx revision uses an unclamped inner
`read`.  All other components are byte-identical between the revisions.

JavaScript `number` arithmetic is modeled as exact real (or, where no
transcendental function is involved, rational) arithmetic.  `Math.round x`
is `⌊x + 1/2⌋`; stores into a `Uint8ClampedArray` follow ECMAScript
`ToUint8Clamp` (clamp to `[0,255]`, round half to even, `NaN ↦ 0`).
-/

namespace WebUtils

/-- `ScalingAlgorithm` from the source: `'box' | 'bilinear' | 'bicubic' | 'lanczos'`. -/
inductive ScalingAlgorithm : Type where
  | box : ScalingAlgorithm
  | bilinear : ScalingAlgorithm
  | bicubic : ScalingAlgorithm
  | lanczos : ScalingAlgorithm
deriving DecidableEq

/-- `clamp` from the source: `Math.max(min, Math.min(max, val))`. -/
def clamp {α : Type} [LinearOrder α] (val lo hi : α) : α := max lo (min hi val)

/-- JS `Math.round`: for finite arguments `Math.round x = ⌊x + 0.5⌋`
(halves round toward +∞). -/
def jround {α : Type} [LinearOrderedField α] [FloorRing α] (x : α) : ℤ := ⌊x + 1 / 2⌋

/-- Round half to even, the rounding used by ECMAScript `ToUint8Clamp`
(the conversion applied by every store into a `Uint8ClampedArray`). -/
def rhe {α : Type} [LinearOrderedField α] [FloorRing α] (x : α) : ℤ :=
  if Int.fract x < 1 / 2 then ⌊x⌋
  else if 1 / 2 < Int.fract x then ⌊x⌋ + 1
  else if 2 ∣ ⌊x⌋ then ⌊x⌋ else ⌊x⌋ + 1

/-- ECMAScript `ToUint8Clamp` for a non-NaN argument: clamp into `[0, 255]`,
round half to even. -/
def toU8C {α : Type} [LinearOrderedField α] [FloorRing α] (x : α) : ℕ :=
  if x ≤ 0 then 0 else if 255 ≤ x then 255 else (rhe x).toNat

/-- The premultiply loop of `resample` (both revisions):
`premult[i+c] = src[i+c] * (src[i+3]/255)` for the color channels and
`premult[i+3] = src[i+3]`.  The `Float32Array` is modeled as a total
function on indices; positions that the loop never writes keep the
array's zero fill, and reads below index 0 — which the in-bounds theorem
for the current revision rules out — also yield 0 here.  (The superseded
App.tsx bilinear path, where an out-of-bounds read actually occurs and
produces NaN, is modeled separately below with `Option` values.) -/
noncomputable def premultF (src : List ℕ) : ℤ → ℝ := fun idx =>
  if 0 ≤ idx then
    if idx.toNat % 4 = 3 then (src.getD idx.toNat 0 : ℝ)
    else (src.getD idx.toNat 0 : ℝ) * ((src.getD (4 * (idx.toNat / 4) + 3) 0 : ℝ) / 255)
  else 0

/-- The flat `premult` index fetched by `readPixel` (both revisions):
`xi = clamp(Math.round(x), 0, sw-1)`, `yi = clamp(Math.round(y), 0, sh-1)`,
`idx = (yi*sw + xi)*4`. -/
noncomputable def readIdx (sw sh : ℕ) (x y : ℝ) : ℤ :=
  (clamp (jround y) 0 ((sh : ℤ) - 1) * sw + clamp (jround x) 0 ((sw : ℤ) - 1)) * 4

/-- `readPixel` (both revisions), one channel `c ∈ {0,1,2,3}` of the clamped
source fetch. -/
noncomputable def readPixel (sw sh : ℕ) (pm : ℤ → ℝ) (x y : ℝ) (c : ℕ) : ℝ :=
  pm (readIdx sw sh x y + c)

/-- `[a, a+1, ..., b]`, the iterations of `for (v = a; v <= b; v += 1)`. -/
def intRangeIncl (a b : ℤ) : List ℤ :=
  (List.range (b + 1 - a).toNat).map (fun k : ℕ => a + (k : ℤ))

/-- `[a, a+1, ..., b-1]`, the iterations of `for (v = a; v < b; v += 1)`. -/
def intRangeLt (a b : ℤ) : List ℤ :=
  (List.range (b - a).toNat).map (fun k : ℕ => a + (k : ℤ))

/-- The `(x, y)` iteration order of a nested `for (y …) for (x …)` loop. -/
def tapGrid (xs ys : List ℤ) : List (ℤ × ℤ) := ys.flatMap (fun y => xs.map (fun x => (x, y)))

/-- The source-pixel footprint of `boxSample`:
`x0 = ⌊dx*scaleX⌋`, `x1 = min(⌈(dx+1)*scaleX⌉, sw)` (likewise for y),
iterated exclusively.  `scaleX = sw/dw`, `scaleY = sh/dh` as computed by
`resample` and captured by the kernel closure. -/
noncomputable def boxTaps (sw sh dw dh dx dy : ℕ) : List (ℤ × ℤ) :=
  let scaleX : ℝ := (sw : ℝ) / (dw : ℝ)
  let scaleY : ℝ := (sh : ℝ) / (dh : ℝ)
  let x0 : ℤ := ⌊(dx : ℝ) * scaleX⌋
  let x1 : ℤ := min ⌈((dx : ℝ) + 1) * scaleX⌉ (sw : ℤ)
  let y0 : ℤ := ⌊(dy : ℝ) * scaleY⌋
  let y1 : ℤ := min ⌈((dy : ℝ) + 1) * scaleY⌉ (sh : ℤ)
  tapGrid (intRangeLt x0 x1) (intRangeLt y0 y1)

/-- `boxSample` (both revisions): arithmetic mean of the premultiplied
channels over the footprint; an empty footprint yields `(0,0,0,0)`. -/
noncomputable def boxSample (src : List ℕ) (sw sh dw dh dx dy : ℕ) : ℝ × ℝ × ℝ × ℝ :=
  let pm := premultF src
  let taps := boxTaps sw sh dw dh dx dy
  let acc : ℕ → ℝ := fun c => (taps.map (fun t => pm ((t.2 * sw + t.1) * 4 + c))).sum
  let count : ℕ := taps.length
  if count = 0 then (0, 0, 0, 0)
  else (acc 0 / count, acc 1 / count, acc 2 / count, acc 3 / count)

/-- `bilinearSample` of the current (ImageImportModal) revision: the four
taps `(x0,y0)…(x0+1,y0+1)` are fetched through the clamping `readPixel`
and blended with `mix(a,b,t) = a + (b-a)*t`. -/
noncomputable def bilinearSample (src : List ℕ) (sw sh dw dh dx dy : ℕ) : ℝ × ℝ × ℝ × ℝ :=
  let pm := premultF src
  let scaleX : ℝ := (sw : ℝ) / (dw : ℝ)
  let scaleY : ℝ := (sh : ℝ) / (dh : ℝ)
  let sx : ℝ := ((dx : ℝ) + 0.5) * scaleX - 0.5
  let sy : ℝ := ((dy : ℝ) + 0.5) * scaleY - 0.5
  let x0 : ℤ := ⌊sx⌋
  let y0 : ℤ := ⌊sy⌋
  let x1 : ℤ := x0 + 1
  let y1 : ℤ := y0 + 1
  let fx : ℝ := sx - x0
  let fy : ℝ := sy - y0
  let mix : ℝ → ℝ → ℝ → ℝ := fun a b t => a + (b - a) * t
  let ch : ℕ → ℝ := fun c =>
    mix (mix (readPixel sw sh pm x0 y0 c) (readPixel sw sh pm x1 y0 c) fx)
        (mix (readPixel sw sh pm x0 y1 c) (readPixel sw sh pm x1 y1 c) fx) fy
  (ch 0, ch 1, ch 2, ch 3)

/-- `cubicWeight` from the source: Catmull-Rom cubic with `a = -0.5`. -/
def cubicWeight {α : Type} [LinearOrderedField α] (x : α) : α :=
  let a : α := -(1 / 2)
  let ab := |x|
  if ab ≤ 1 then (a + 2) * ab * ab * ab - (a + 3) * ab * ab + 1
  else if ab < 2 then a * ab * ab * ab - 5 * a * ab * ab + 8 * a * ab - 4 * a
  else 0

/-- `bicubicSample` (both revisions): 4×4 neighborhood around `⌊sx⌋, ⌊sy⌋`,
taps through `readPixel`, normalized by `weightSum || 1`. -/
noncomputable def bicubicSample (src : List ℕ) (sw sh dw dh dx dy : ℕ) : ℝ × ℝ × ℝ × ℝ :=
  let pm := premultF src
  let scaleX : ℝ := (sw : ℝ) / (dw : ℝ)
  let scaleY : ℝ := (sh : ℝ) / (dh : ℝ)
  let sx : ℝ := ((dx : ℝ) + 0.5) * scaleX - 0.5
  let sy : ℝ := ((dy : ℝ) + 0.5) * scaleY - 0.5
  let xInt : ℤ := ⌊sx⌋
  let yInt : ℤ := ⌊sy⌋
  let xFrac : ℝ := sx - xInt
  let yFrac : ℝ := sy - yInt
  let taps := tapGrid (intRangeIncl (-1) 2) (intRangeIncl (-1) 2)
  let w : ℤ × ℤ → ℝ := fun t => cubicWeight ((t.1 : ℝ) - xFrac) * cubicWeight ((t.2 : ℝ) - yFrac)
  let acc : ℕ → ℝ :=
    fun c => (taps.map (fun t => readPixel sw sh pm ((xInt + t.1 : ℤ) : ℝ) ((yInt + t.2 : ℤ) : ℝ) c * w t)).sum
  let weightSum : ℝ := (taps.map w).sum
  let norm : ℝ := if weightSum = 0 then 1 else weightSum
  (acc 0 / norm, acc 1 / norm, acc 2 / norm, acc 3 / norm)

/-- `sinc` from the source: `sin(πx)/(πx)` with `sinc 0 = 1`. -/
noncomputable def sinc (x : ℝ) : ℝ :=
  if x = 0 then 1 else Real.sin (Real.pi * x) / (Real.pi * x)

/-- `lanczosSample` (both revisions): window `a = 3`, taps
`⌊s⌋-2 … ⌊s⌋+3` per axis through `readPixel`, separable weight
`sinc(d)*sinc(d/3)`, normalized by `weightSum || 1`. -/
noncomputable def lanczosSample (src : List ℕ) (sw sh dw dh dx dy : ℕ) : ℝ × ℝ × ℝ × ℝ :=
  let pm := premultF src
  let scaleX : ℝ := (sw : ℝ) / (dw : ℝ)
  let scaleY : ℝ := (sh : ℝ) / (dh : ℝ)
  let sx : ℝ := ((dx : ℝ) + 0.5) * scaleX - 0.5
  let sy : ℝ := ((dy : ℝ) + 0.5) * scaleY - 0.5
  let taps := tapGrid (intRangeIncl (⌊sx⌋ - 3 + 1) (⌊sx⌋ + 3)) (intRangeIncl (⌊sy⌋ - 3 + 1) (⌊sy⌋ + 3))
  let w : ℤ × ℤ → ℝ := fun t =>
    (sinc (sx - t.1) * sinc ((sx - t.1) / 3)) * (sinc (sy - t.2) * sinc ((sy - t.2) / 3))
  let acc : ℕ → ℝ :=
    fun c => (taps.map (fun t => readPixel sw sh pm (t.1 : ℝ) (t.2 : ℝ) c * w t)).sum
  let weightSum : ℝ := (taps.map w).sum
  let norm : ℝ := if weightSum = 0 then 1 else weightSum
  (acc 0 / norm, acc 1 / norm, acc 2 / norm, acc 3 / norm)

/-- One color channel of `setPixel` (both revisions):
`alpha = a > 0 ? a : 0; invA = alpha > 0 ? 255/alpha : 0;`
`dst[c] = alpha > 0 ? clamp(Math.round(v * invA), 0, 255) : 0`. -/
noncomputable def unpremultChannel (v a : ℝ) : ℕ :=
  let alpha : ℝ := if a > 0 then a else 0
  let invA : ℝ := if alpha > 0 then 255 / alpha else 0
  if alpha > 0 then (clamp (jround (v * invA)) 0 255).toNat else 0

/-- The four bytes written by `setPixel` for one destination cell.  The
alpha store `dst[idx+3] = a` passes the raw kernel alpha through the
`Uint8ClampedArray` conversion `ToUint8Clamp`. -/
noncomputable def setPixelChannels (s : ℝ × ℝ × ℝ × ℝ) : List ℕ :=
  [unpremultChannel s.1 s.2.2.2, unpremultChannel s.2.1 s.2.2.2,
   unpremultChannel s.2.2.1 s.2.2.2, toU8C s.2.2.2]

/-- Kernel dispatch of `resample` (the `switch (mode)`; `lanczos` is also
the `default` arm). -/
noncomputable def sampleAt (mode : ScalingAlgorithm) (src : List ℕ) (sw sh dw dh dx dy : ℕ) :
    ℝ × ℝ × ℝ × ℝ :=
  match mode with
  | ScalingAlgorithm.box => boxSample src sw sh dw dh dx dy
  | ScalingAlgorithm.bilinear => bilinearSample src sw sh dw dh dx dy
  | ScalingAlgorithm.bicubic => bicubicSample src sw sh dw dh dx dy
  | ScalingAlgorithm.lanczos => lanczosSample src sw sh dw dh dx dy

/-- `resample` (current revision, ImageImportModal.tsx lines 645-826): the
destination buffer.  The source allocates `dst = new Uint8ClampedArray(dw*dh*4)`
and writes each destination cell exactly once at slot `(y*dw + x)*4 … +3`
inside a `for (y) for (x)` loop, so the finished buffer is exactly the
row-major concatenation of the per-cell stores. -/
noncomputable def resample (src : List ℕ) (sw sh dw dh : ℕ) (mode : ScalingAlgorithm) : List ℕ :=
  (List.range dh).flatMap (fun y => (List.range dw).flatMap (fun x =>
    setPixelChannels (sampleAt mode src sw sh dw dh x y)))

/-- The `SampleList` extraction (ImageImportModal.tsx lines 247-254): for
each destination pixel, `alpha = resampled[i+3]/255` and each component is
`Math.round(resampled[i+c] * alpha)`.  The inputs are bytes, so the
arithmetic is exact rational arithmetic. -/
def sampleList (buf : List ℕ) : List (ℕ × ℕ × ℕ) :=
  (List.range (buf.length / 4)).map (fun p =>
    ((jround ((buf.getD (4 * p) 0 : ℚ) * ((buf.getD (4 * p + 3) 0 : ℚ) / 255))).toNat,
     (jround ((buf.getD (4 * p + 1) 0 : ℚ) * ((buf.getD (4 * p + 3) 0 : ℚ) / 255))).toNat,
     (jround ((buf.getD (4 * p + 2) 0 : ℚ) * ((buf.getD (4 * p + 3) 0 : ℚ) / 255))).toNat))

/-- The trueBlack lift remap of one channel (ImageImportModal.tsx lines
226-235): `scale = (255 - lift)/255`,
`channel := clamp(Math.round(lift + channel * scale), 0, 255)`, applied to
every pixel whose stored alpha is non-zero. -/
def liftChannel (lift ch : ℕ) : ℕ :=
  let scale : ℚ := (255 - (lift : ℚ)) / 255
  (clamp (jround ((lift : ℚ) + (ch : ℚ) * scale)) 0 255).toNat

/-- A `sw × sh` solid-color fully specified source buffer: every pixel is
`[r, g, b, a]`.  (Input construction used to state uniform-source claims.) -/
def uniformSrc (sw sh r g b a : ℕ) : List ℕ :=
  (List.range (4 * (sw * sh))).map (fun i => [r, g, b, a].getD (i % 4) 0)

/-- The premultiplied buffer over exact rationals, for the superseded
App.tsx bilinear path (which involves no transcendental function, so it
can be embedded computably).  Same formula as `premultF`. -/
def premultQ (src : List ℕ) (i : ℕ) : ℚ :=
  if i % 4 = 3 then (src.getD i 0 : ℚ)
  else (src.getD i 0 : ℚ) * ((src.getD (4 * (i / 4) + 3) 0 : ℚ) / 255)

/-- The unclamped inner `read` of the App.tsx revision's `bilinearSample`
(App.tsx lines 316-319): `idx = (y*sw + x)*4`; a JS `Float32Array` access
at an out-of-range index yields `undefined` (then NaN in arithmetic),
modeled as `none`. -/
def readApp (src : List ℕ) (sw sh : ℕ) (x y : ℤ) (c : ℕ) : Option ℚ :=
  let idx : ℤ := (y * sw + x) * 4 + c
  if 0 ≤ idx ∧ idx < 4 * (sw * sh) then some (premultQ src idx.toNat) else none

/-- NaN-propagating `lerp(a, b, t) = a + (b - a) * t` (any arithmetic on
`undefined`/NaN yields NaN). -/
def olerp (a b : Option ℚ) (t : ℚ) : Option ℚ :=
  match a, b with
  | some av, some bv => some (av + (bv - av) * t)
  | _, _ => none

/-- The flat `premult` indices fetched by the App.tsx revision's
`bilinearSample`, in read order `p00, p10, p01, p11`.  `x0 = ⌊sx⌋` is not
clamped below, so the index can be negative. -/
def bilinearAppReadIdxs (sw sh dw dh dx dy : ℕ) : List ℤ :=
  let scaleX : ℚ := (sw : ℚ) / (dw : ℚ)
  let scaleY : ℚ := (sh : ℚ) / (dh : ℚ)
  let sx : ℚ := ((dx : ℚ) + 1 / 2) * scaleX - 1 / 2
  let sy : ℚ := ((dy : ℚ) + 1 / 2) * scaleY - 1 / 2
  let x0 : ℤ := ⌊sx⌋
  let x1 : ℤ := min ⌈sx⌉ ((sw : ℤ) - 1)
  let y0 : ℤ := ⌊sy⌋
  let y1 : ℤ := min ⌈sy⌉ ((sh : ℤ) - 1)
  [(y0 * sw + x0) * 4, (y0 * sw + x1) * 4, (y1 * sw + x0) * 4, (y1 * sw + x1) * 4]

/-- `bilinearSample` of the superseded App.tsx revision (lines 305-332):
`x1 = min(⌈sx⌉, sw-1)`, `y1 = min(⌈sy⌉, sh-1)`, four unclamped reads,
`lerp` blending. -/
def bilinearSampleApp (src : List ℕ) (sw sh dw dh dx dy : ℕ) :
    Option ℚ × Option ℚ × Option ℚ × Option ℚ :=
  let scaleX : ℚ := (sw : ℚ) / (dw : ℚ)
  let scaleY : ℚ := (sh : ℚ) / (dh : ℚ)
  let sx : ℚ := ((dx : ℚ) + 1 / 2) * scaleX - 1 / 2
  let sy : ℚ := ((dy : ℚ) + 1 / 2) * scaleY - 1 / 2
  let x0 : ℤ := ⌊sx⌋
  let x1 : ℤ := min ⌈sx⌉ ((sw : ℤ) - 1)
  let y0 : ℤ := ⌊sy⌋
  let y1 : ℤ := min ⌈sy⌉ ((sh : ℤ) - 1)
  let wX : ℚ := sx - x0
  let wY : ℚ := sy - y0
  let ch : ℕ → Option ℚ := fun c =>
    olerp (olerp (readApp src sw sh x0 y0 c) (readApp src sw sh x1 y0 c) wX)
          (olerp (readApp src sw sh x0 y1 c) (readApp src sw sh x1 y1 c) wX) wY
  (ch 0, ch 1, ch 2, ch 3)

/-- One color channel of `setPixel` fed with possibly-NaN values: the JS
comparison `NaN > 0` is false, `Math.round`/`clamp` propagate NaN, and a
`Uint8ClampedArray` stores NaN as 0. -/
def unpremultChannelO (v a : Option ℚ) : ℕ :=
  let alpha : ℚ := match a with | some av => if av > 0 then av else 0 | none => 0
  let invA : ℚ := if alpha > 0 then 255 / alpha else 0
  if alpha > 0 then
    match v with
    | some vv => (clamp (jround (vv * invA)) 0 255).toNat
    | none => 0
  else 0

/-- `ToUint8Clamp` on a possibly-NaN value: NaN stores as 0. -/
def toU8CO (a : Option ℚ) : ℕ :=
  match a with
  | some av => toU8C av
  | none => 0

/-- The four bytes `setPixel` writes for one cell of the App.tsx bilinear
path. -/
def setPixelChannelsO (s : Option ℚ × Option ℚ × Option ℚ × Option ℚ) : List ℕ :=
  [unpremultChannelO s.1 s.2.2.2, unpremultChannelO s.2.1 s.2.2.2,
   unpremultChannelO s.2.2.1 s.2.2.2, toU8CO s.2.2.2]

/-- The App.tsx revision's `resample` specialized to `mode = 'bilinear'`
(the only kernel arm that differs from the current revision): the
destination buffer it returns. -/
def resampleAppBilinear (src : List ℕ) (sw sh dw dh : ℕ) : List ℕ :=
  (List.range dh).flatMap (fun y => (List.range dw).flatMap (fun x =>
    setPixelChannelsO (bilinearSampleApp src sw sh dw dh x y)))

/-- The flat `premult` indices fetched while computing one destination cell
of the current revision, per selected kernel.  The kernels above read `pm`
at exactly these indices (plus the channel offset `0..3`): `box` reads its
footprint directly, the other three go through `readPixel`. -/
noncomputable def readIdxs (mode : ScalingAlgorithm) (sw sh dw dh dx dy : ℕ) : List ℤ :=
  let scaleX : ℝ := (sw : ℝ) / (dw : ℝ)
  let scaleY : ℝ := (sh : ℝ) / (dh : ℝ)
  let sx : ℝ := ((dx : ℝ) + 0.5) * scaleX - 0.5
  let sy : ℝ := ((dy : ℝ) + 0.5) * scaleY - 0.5
  match mode with
  | ScalingAlgorithm.box =>
      (boxTaps sw sh dw dh dx dy).map (fun t => (t.2 * sw + t.1) * 4)
  | ScalingAlgorithm.bilinear =>
      [readIdx sw sh (⌊sx⌋ : ℝ) (⌊sy⌋ : ℝ), readIdx sw sh ((⌊sx⌋ + 1 : ℤ) : ℝ) (⌊sy⌋ : ℝ),
       readIdx sw sh (⌊sx⌋ : ℝ) ((⌊sy⌋ + 1 : ℤ) : ℝ),
       readIdx sw sh ((⌊sx⌋ + 1 : ℤ) : ℝ) ((⌊sy⌋ + 1 : ℤ) : ℝ)]
  | ScalingAlgorithm.bicubic =>
      (tapGrid (intRangeIncl (-1) 2) (intRangeIncl (-1) 2)).map (fun t =>
        readIdx sw sh ((⌊sx⌋ + t.1 : ℤ) : ℝ) ((⌊sy⌋ + t.2 : ℤ) : ℝ))
  | ScalingAlgorithm.lanczos =>
      (tapGrid (intRangeIncl (⌊sx⌋ - 3 + 1) (⌊sx⌋ + 3)) (intRangeIncl (⌊sy⌋ - 3 + 1) (⌊sy⌋ + 3))).map
        (fun t => readIdx sw sh (t.1 : ℝ) (t.2 : ℝ))

/-- The mutable state of one `resample` invocation: the caller's source
buffer and the two buffers the engine allocates. -/
structure RState where
  src : List ℕ
  premult : List ℝ
  dst : List ℕ

/-- One iteration of the premultiply loop: four stores into the `premult`
array for source pixel `p`.  Typed-array stores discard out-of-range
indices, which is exactly `List.set`. -/
noncomputable def premultStep (s : RState) (p : ℕ) : RState :=
  let a : ℝ := (s.src.getD (4 * p + 3) 0 : ℝ) / 255
  { s with premult :=
      ((((s.premult.set (4 * p) ((s.src.getD (4 * p) 0 : ℝ) * a)).set
          (4 * p + 1) ((s.src.getD (4 * p + 1) 0 : ℝ) * a)).set
          (4 * p + 2) ((s.src.getD (4 * p + 2) 0 : ℝ) * a)).set
          (4 * p + 3) (s.src.getD (4 * p + 3) 0 : ℝ)) }

/-- One `setPixel` call: four stores into the `dst` array for destination
cell `(x, y)`. -/
noncomputable def setPixelStep (sw sh dw dh : ℕ) (mode : ScalingAlgorithm) (y : ℕ)
    (s2 : RState) (x : ℕ) : RState :=
  let ch := setPixelChannels (sampleAt mode s2.src sw sh dw dh x y)
  { s2 with dst := ((((s2.dst.set ((y * dw + x) * 4) (ch.getD 0 0)).set
      ((y * dw + x) * 4 + 1) (ch.getD 1 0)).set
      ((y * dw + x) * 4 + 2) (ch.getD 2 0)).set
      ((y * dw + x) * 4 + 3) (ch.getD 3 0)) }

/-- `resample` as explicit state passing over its three buffers, mirroring
the source's mutation structure: allocate `premult` (zero-filled), run the
premultiply loop (`⌈src.length/4⌉` iterations of four stores), allocate
`dst` (zero-filled), then one `setPixel` (four stores at
`(y*dw+x)*4 … +3`) per destination cell of the `for (y) for (x)` loop. -/
noncomputable def resampleSt (st : RState) (sw sh dw dh : ℕ) (mode : ScalingAlgorithm) : RState :=
  let st1 : RState := { st with premult := List.replicate (4 * (sw * sh)) 0 }
  let st2 : RState := (List.range ((st1.src.length + 3) / 4)).foldl premultStep st1
  let st3 : RState := { st2 with dst := List.replicate (4 * (dw * dh)) 0 }
  (List.range dh).foldl (fun s y => (List.range dw).foldl (setPixelStep sw sh dw dh mode y) s) st3

/-! ### Generic helper lemmas -/

lemma clamp_mem {α : Type} [LinearOrder α] (v lo hi : α) (h : lo ≤ hi) :
    lo ≤ clamp v lo hi ∧ clamp v lo hi ≤ hi :=
  ⟨le_max_left _ _, max_le h (min_le_left _ _)⟩

lemma clamp_mono {α : Type} [LinearOrder α] (lo hi : α) {v w : α} (h : v ≤ w) :
    clamp v lo hi ≤ clamp w lo hi :=
  max_le_max le_rfl (min_le_min le_rfl h)

lemma jround_mono {α : Type} [LinearOrderedField α] [FloorRing α] {x y : α} (h : x ≤ y) :
    jround x ≤ jround y :=
  Int.floor_le_floor (by linarith)

lemma jround_intCast {α : Type} [LinearOrderedField α] [FloorRing α] (z : ℤ) :
    jround (z : α) = z := by
  unfold jround
  rw [Int.floor_eq_iff]
  refine ⟨by linarith, by linarith⟩

lemma jround_natCast {α : Type} [LinearOrderedField α] [FloorRing α] (n : ℕ) :
    jround (n : α) = n := by
  have := jround_intCast (α := α) (n : ℤ)
  simpa using this

lemma jround_zero {α : Type} [LinearOrderedField α] [FloorRing α] : jround (0 : α) = 0 := by
  simpa using jround_natCast (α := α) 0

lemma jround_nonneg {α : Type} [LinearOrderedField α] [FloorRing α] {x : α} (h : 0 ≤ x) :
    0 ≤ jround x := by
  have := jround_mono (α := α) h
  rwa [jround_zero] at this

lemma jround_le_of_le {α : Type} [LinearOrderedField α] [FloorRing α] {x : α} {n : ℕ}
    (h : x ≤ n) : jround x ≤ n := by
  have := jround_mono (α := α) h
  rwa [jround_natCast] at this

lemma intRangeLt_mem {a b i : ℤ} (h : i ∈ intRangeLt a b) : a ≤ i ∧ i < b := by
  simp only [intRangeLt, List.mem_map, List.mem_range] at h
  obtain ⟨k, hk, rfl⟩ := h
  omega

lemma intRangeIncl_mem {a b i : ℤ} (h : i ∈ intRangeIncl a b) : a ≤ i ∧ i ≤ b := by
  simp only [intRangeIncl, List.mem_map, List.mem_range] at h
  obtain ⟨k, hk, rfl⟩ := h
  omega

lemma tapGrid_mem {xs ys : List ℤ} {t : ℤ × ℤ} (h : t ∈ tapGrid xs ys) :
    t.1 ∈ xs ∧ t.2 ∈ ys := by
  unfold tapGrid at h
  rcases List.mem_flatMap.mp h with ⟨y, hy, hx⟩
  rcases List.mem_map.mp hx with ⟨x, hxs, rfl⟩
  exact ⟨hxs, hy⟩

lemma tapGrid_length (xs ys : List ℤ) : (tapGrid xs ys).length = ys.length * xs.length := by
  unfold tapGrid
  rw [List.length_flatMap]
  have h : (ys.map (List.length ∘ fun y => xs.map (fun x => (x, y)))).sum
      = (ys.map (fun _ => xs.length)).sum := by
    apply congrArg
    exact List.map_congr_left (fun y _ => by simp)
  rw [h]
  simp [List.map_const]

/-! ### C1 — dimension validation -/

/-- **C1, counterexample.**  The claim says a call with target width 0 fails
synchronously with an `InvalidDimensions` error and returns no buffer of any
kind.  In fact `resample` contains no validation and no error path at all
(its result type has no failure case anywhere in either revision): called
with `dw = 0` on a 1×1 white source it returns normally with an (empty)
`Uint8ClampedArray`. -/
theorem resample_width_zero_returns_buffer :
    resample [255, 255, 255, 255] 1 1 0 1 ScalingAlgorithm.box = [] := by
  simp [resample]

lemma resample_length (src : List ℕ) (sw sh dw dh : ℕ) (mode : ScalingAlgorithm) :
    (resample src sw sh dw dh mode).length = 4 * (dw * dh) := by
  unfold resample
  rw [List.length_flatMap]
  have hrow : ∀ y : ℕ,
      ((List.range dw).flatMap (fun x => setPixelChannels (sampleAt mode src sw sh dw dh x y))).length
        = 4 * dw := by
    intro y
    rw [List.length_flatMap]
    have : ∀ x : ℕ, (setPixelChannels (sampleAt mode src sw sh dw dh x y)).length = 4 := by
      intro x; unfold setPixelChannels; rfl
    calc ((List.range dw).map
            (List.length ∘ fun x => setPixelChannels (sampleAt mode src sw sh dw dh x y))).sum
        = ((List.range dw).map (fun _ => 4)).sum := by
          apply congrArg
          exact List.map_congr_left (fun x _ => this x)
      _ = 4 * dw := by
          simp [List.map_const, Nat.mul_comm]
  calc ((List.range dh).map
          (List.length ∘ fun y => (List.range dw).flatMap
            (fun x => setPixelChannels (sampleAt mode src sw sh dw dh x y)))).sum
      = ((List.range dh).map (fun _ => 4 * dw)).sum := by
        apply congrArg
        exact List.map_congr_left (fun y _ => hrow y)
    _ = 4 * (dw * dh) := by
        simp [List.map_const]
        ring

/-- **C1, amended.**  The engine performs no dimension validation and can
never fail: for every input — including a zero or degenerate target grid
and a zero-size crop (`sw = sh = 0`) — it returns a destination buffer of
exactly `dw*dh*4` bytes; in particular for `dw = 0` or `dh = 0` that buffer
is empty rather than an error. -/
theorem resample_total_with_length (src : List ℕ) (sw sh dw dh : ℕ) (mode : ScalingAlgorithm) :
    (resample src sw sh dw dh mode).length = 4 * (dw * dh) :=
  resample_length src sw sh dw dh mode

/-! ### C6 — un-premultiply formula -/

/-- Modelled from the spec (§4.1): the inverse premultiply recovers
display-ready values as `round(clamp(channel × 255/alpha, 0, 255))` when
`alpha > 0`, else `0`. -/
noncomputable def unpremultChannelSpec (v a : ℝ) : ℕ :=
  if a > 0 then (jround (clamp (v * (255 / a)) 0 255)).toNat else 0

lemma clamp_jround_comm (x : ℝ) : clamp (jround x) 0 255 = jround (clamp x 0 255) := by
  unfold clamp
  rcases le_or_lt x 0 with hx | hx
  · rw [min_eq_right (by linarith : x ≤ (255 : ℝ)), max_eq_left hx]
    have h1 : jround x ≤ 0 := by
      have := jround_mono (α := ℝ) hx
      rwa [jround_zero] at this
    rw [min_eq_right (by omega : jround x ≤ (255 : ℤ)), max_eq_left h1, jround_zero]
  rcases le_or_lt x 255 with hx2 | hx2
  · rw [min_eq_right hx2, max_eq_right (le_of_lt hx)]
    have h1 : 0 ≤ jround x := jround_nonneg (le_of_lt hx)
    have h2 : jround x ≤ 255 := jround_le_of_le (n := 255) (by exact_mod_cast hx2)
    rw [min_eq_right (by exact_mod_cast h2), max_eq_right h1]
  · rw [min_eq_left (by linarith : (255 : ℝ) ≤ x), max_eq_right (by norm_num : (0 : ℝ) ≤ 255)]
    have h1 : (255 : ℤ) ≤ jround x := by
      have : ((255 : ℕ) : ℝ) ≤ x := by push_cast; linarith
      have h2 := jround_mono (α := ℝ) this
      rwa [jround_natCast] at h2
    rw [min_eq_left (by omega : (255 : ℤ) ≤ jround x), max_eq_right (by omega : (0 : ℤ) ≤ 255)]
    have : jround ((255 : ℕ) : ℝ) = 255 := jround_natCast 255
    simpa using this.symm

/-- **C6.**  The value the engine stores for a color channel,
`clamp(Math.round(c × 255/a), 0, 255)` for `a > 0` and `0` otherwise
(`setPixel`, both revisions), coincides for every premultiplied channel
value `c` and every alpha `a` with the spec's formula
`round(clamp(c × 255/a, 0, 255))` (resp. `0`). -/
theorem unpremultChannel_eq_spec (v a : ℝ) :
    unpremultChannel v a = unpremultChannelSpec v a := by
  unfold unpremultChannel unpremultChannelSpec
  rcases lt_or_le 0 a with ha | ha
  · simp only [if_pos ha]
    rw [clamp_jround_comm]
  · have hna : ¬ a > 0 := not_lt.mpr ha
    simp [hna]

/-! ### C7 — trueBlack lift monotonicity -/

/-- **C7.**  With the `trueBlack` background policy, for a fixed stored
channel value `ch ≤ 255` of a pixel with non-zero alpha, the remapped value
`clamp(round(lift + ch*(255-lift)/255), 0, 255)` is monotonically
nondecreasing in the lift amount on `0 ≤ l₁ ≤ l₂ ≤ 127`. -/
theorem liftChannel_monotone (ch l₁ l₂ : ℕ) (hch : ch ≤ 255) (h12 : l₁ ≤ l₂) (_h127 : l₂ ≤ 127) :
    liftChannel l₁ ch ≤ liftChannel l₂ ch := by
  unfold liftChannel
  have hch' : (ch : ℚ) ≤ 255 := by exact_mod_cast hch
  have h12' : (l₁ : ℚ) ≤ l₂ := by exact_mod_cast h12
  have hq : (l₁ : ℚ) + (ch : ℚ) * ((255 - (l₁ : ℚ)) / 255)
      ≤ (l₂ : ℚ) + (ch : ℚ) * ((255 - (l₂ : ℚ)) / 255) := by
    have key : 0 ≤ ((l₂ : ℚ) - l₁) * (255 - ch) := by
      apply mul_nonneg <;> linarith
    nlinarith
  exact Int.toNat_le_toNat (clamp_mono 0 255 (jround_mono hq))

/-- **C7, witness.**  Instantiation at `ch = 200`, `l₁ = 10`, `l₂ = 100`. -/
theorem liftChannel_monotone_witness : liftChannel 10 200 ≤ liftChannel 100 200 :=
  liftChannel_monotone 200 10 100 (by decide) (by decide) (by decide)

/-! ### C10 — zero stored alpha -/

/-- **C10, amended (SampleList half).**  Every pixel whose *stored* alpha
byte is 0 contributes the triple `(0,0,0)` to the `SampleList` (the buffer
half of the claim is false, see the counterexample: the un-premultiplied
R/G/B bytes of such a pixel need not be 0). -/
theorem sampleList_zero_alpha (buf : List ℕ) (p : ℕ) (hp : p < buf.length / 4)
    (h0 : buf.getD (4 * p + 3) 0 = 0) :
    (sampleList buf).getD p (0, 0, 0) = (0, 0, 0) := by
  unfold sampleList
  have hl : p < ((List.range (buf.length / 4)).map (fun p =>
      ((jround ((buf.getD (4 * p) 0 : ℚ) * ((buf.getD (4 * p + 3) 0 : ℚ) / 255))).toNat,
       (jround ((buf.getD (4 * p + 1) 0 : ℚ) * ((buf.getD (4 * p + 3) 0 : ℚ) / 255))).toNat,
       (jround ((buf.getD (4 * p + 2) 0 : ℚ) * ((buf.getD (4 * p + 3) 0 : ℚ) / 255))).toNat))).length := by
    simpa using hp
  rw [List.getD_eq_getElem _ _ hl, List.getElem_map, List.getElem_range]
  rw [h0]
  norm_num [jround_zero]

/-- **C10, amended witness.**  A one-pixel buffer with stored alpha 0 and
R = 255: its SampleList entry is `(0,0,0)`. -/
theorem sampleList_zero_alpha_witness : (sampleList [255, 0, 0, 0]).getD 0 (0, 0, 0) = (0, 0, 0) :=
  sampleList_zero_alpha [255, 0, 0, 0] 0 (by decide) (by decide)

/-- 2×2 source whose top-left pixel is `[255,0,0,1]` (red at alpha byte 1)
and whose other three pixels are fully transparent black. -/
def srcLowAlpha : List ℕ := [255, 0, 0, 1, 0, 0, 0, 0, 0, 0, 0, 0, 0, 0, 0, 0]

/-- **C10, counterexample.**  The claim says every returned pixel with
stored alpha 0 has `R = G = B = 0`.  Box-downscaling `srcLowAlpha` to 1×1
averages premultiplied `(1, 0, 0, 0.25)`; `setPixel` sees kernel alpha
`0.25 > 0`, un-premultiplies `R` to `round(1/4 * 1020) = 255`, while the
alpha byte store `ToUint8Clamp(0.25)` rounds to 0: the returned pixel is
`[255, 0, 0, 0]` — stored alpha 0 with `R = 255 ≠ 0`. -/
theorem resample_zero_alpha_nonzero_rgb :
    (resample srcLowAlpha 2 2 1 1 ScalingAlgorithm.box).getD 3 0 = 0 ∧
    (resample srcLowAlpha 2 2 1 1 ScalingAlgorithm.box).getD 0 0 = 255 := by
  have h1 : resample srcLowAlpha 2 2 1 1 ScalingAlgorithm.box
      = setPixelChannels (boxSample srcLowAlpha 2 2 1 1 0 0) := by
    simp [resample, sampleAt, List.range_succ]
  have htaps : boxTaps 2 2 1 1 0 0 = [(0, 0), (1, 0), (0, 1), (1, 1)] := by
    simp only [boxTaps]
    norm_num
    decide
  have hbox : boxSample srcLowAlpha 2 2 1 1 0 0 = (1 / 4, 0, 0, 1 / 4) := by
    simp only [boxSample, htaps]
    simp [premultF, srcLowAlpha, List.getD]
  have hset : setPixelChannels (1 / 4, 0, 0, 1 / 4) = [255, 0, 0, 0] := by
    simp only [setPixelChannels, unpremultChannel, toU8C, rhe, clamp, jround]
    norm_num [Int.fract]
    simp
  rw [h1, hbox, hset]
  constructor <;> rfl

/-! ### C4 — range invariant -/

lemma unpremultChannel_le (v a : ℝ) : unpremultChannel v a ≤ 255 := by
  rcases lt_or_le 0 a with ha | ha
  · simp only [unpremultChannel, gt_iff_lt, ha, if_true]
    have h := (clamp_mem (jround (v * (255 / a))) 0 255 (by norm_num)).2
    have h2 := Int.toNat_le_toNat h
    simpa using h2
  · simp [unpremultChannel, not_lt.mpr ha]

lemma toU8C_le (x : ℝ) : toU8C x ≤ 255 := by
  unfold toU8C
  split
  · omega
  split
  · omega
  rename_i h1 h2
  have hf : ⌊x⌋ < 255 := Int.floor_lt.mpr (by push_cast; linarith)
  have hr : rhe x ≤ 255 := by
    unfold rhe
    split
    · omega
    split
    · omega
    split <;> omega
  calc (rhe x).toNat ≤ (255 : ℤ).toNat := Int.toNat_le_toNat hr
    _ = 255 := by simp

lemma mem_setPixelChannels_le {c : ℕ} {s : ℝ × ℝ × ℝ × ℝ} (h : c ∈ setPixelChannels s) :
    c ≤ 255 := by
  unfold setPixelChannels at h
  simp only [List.mem_cons, List.not_mem_nil, or_false] at h
  rcases h with h | h | h | h
  all_goals subst h
  · exact unpremultChannel_le _ _
  · exact unpremultChannel_le _ _
  · exact unpremultChannel_le _ _
  · exact toU8C_le _

lemma mem_resample_le {c : ℕ} {src : List ℕ} {sw sh dw dh : ℕ} {mode : ScalingAlgorithm}
    (h : c ∈ resample src sw sh dw dh mode) : c ≤ 255 := by
  unfold resample at h
  rcases List.mem_flatMap.mp h with ⟨y, _, hy⟩
  rcases List.mem_flatMap.mp hy with ⟨x, _, hx⟩
  exact mem_setPixelChannels_le hx

lemma getD_le_of_all_le {buf : List ℕ} (hb : ∀ c ∈ buf, c ≤ 255) (i : ℕ) :
    buf.getD i 0 ≤ 255 := by
  rcases lt_or_le i buf.length with hi | hi
  · rw [List.getD_eq_getElem _ _ hi]
    exact hb _ (List.getElem_mem hi)
  · rw [List.getD_eq_default _ _ hi]
    omega

lemma alphaFold_le {b1 b2 : ℕ} (h1 : b1 ≤ 255) (h2 : b2 ≤ 255) :
    (jround ((b1 : ℚ) * ((b2 : ℚ) / 255))).toNat ≤ 255 := by
  have hq : (b1 : ℚ) * ((b2 : ℚ) / 255) ≤ ((255 : ℕ) : ℚ) := by
    have hb1 : (b1 : ℚ) ≤ 255 := by exact_mod_cast h1
    have hb2 : (b2 : ℚ) ≤ 255 := by exact_mod_cast h2
    have hb1n : (0 : ℚ) ≤ b1 := by positivity
    push_cast
    nlinarith
  have hj := jround_le_of_le hq
  calc (jround _).toNat ≤ ((255 : ℕ) : ℤ).toNat := Int.toNat_le_toNat hj
    _ = 255 := by simp

/-- **C4.**  For every input buffer and every algorithm, every channel of
every pixel of the RGBA buffer returned by `resample` (alpha included) lies
in `[0, 255]`, and so does every component of every RGB triple of the
derived `SampleList` — Lanczos over/undershoot is clamped, never exposed.
(The channels are naturals, so the lower bound 0 is inherent.) -/
theorem resample_range_invariant (src : List ℕ) (sw sh dw dh : ℕ) (mode : ScalingAlgorithm) :
    ((resample src sw sh dw dh mode).all (fun c => decide (c ≤ 255)) = true) ∧
    ((sampleList (resample src sw sh dw dh mode)).all
      (fun t => decide (t.1 ≤ 255) && decide (t.2.1 ≤ 255) && decide (t.2.2 ≤ 255)) = true) := by
  have hbuf : ∀ c ∈ resample src sw sh dw dh mode, c ≤ 255 := fun c hc => mem_resample_le hc
  constructor
  · rw [List.all_eq_true]
    intro c hc
    simpa using hbuf c hc
  · rw [List.all_eq_true]
    intro t ht
    unfold sampleList at ht
    rcases List.mem_map.mp ht with ⟨p, _, rfl⟩
    simp only [Bool.and_eq_true, decide_eq_true_eq]
    refine ⟨⟨?_, ?_⟩, ?_⟩
    all_goals exact alphaFold_le (getD_le_of_all_le hbuf _) (getD_le_of_all_le hbuf _)

/-! ### C8 — fully transparent source -/

lemma premultF_zero_of_alpha_zero {src : List ℕ} (h : ∀ i : ℕ, src.getD (4 * i + 3) 0 = 0) :
    ∀ idx : ℤ, premultF src idx = 0 := by
  intro idx
  unfold premultF
  split
  · rename_i h0
    split
    · rename_i h3
      have : idx.toNat = 4 * (idx.toNat / 4) + 3 := by omega
      rw [this, h (idx.toNat / 4)]
      norm_num
    · rw [h (idx.toNat / 4)]
      norm_num
  · rfl

lemma sampleAt_of_premult_zero (mode : ScalingAlgorithm) (src : List ℕ) (sw sh dw dh dx dy : ℕ)
    (h : ∀ idx : ℤ, premultF src idx = 0) :
    sampleAt mode src sw sh dw dh dx dy = (0, 0, 0, 0) := by
  cases mode
  · simp [sampleAt, boxSample, h, List.map_const, ite_self]
  · simp [sampleAt, bilinearSample, readPixel, h]
  · simp [sampleAt, bicubicSample, readPixel, h, List.map_const]
  · simp [sampleAt, lanczosSample, readPixel, h, List.map_const]

lemma setPixelChannels_zero : setPixelChannels (0, 0, 0, 0) = [0, 0, 0, 0] := by
  simp [setPixelChannels, unpremultChannel, toU8C]

lemma getD_replicate_zero (n i : ℕ) : (List.replicate n (0 : ℕ)).getD i 0 = 0 := by
  rcases lt_or_le i n with hi | hi
  · rw [List.getD_eq_getElem _ _ (by simpa using hi)]
    simp
  · rw [List.getD_eq_default _ _ (by simpa using hi)]

/-- **C8.**  For every source buffer in which every pixel has alpha 0
(whatever its RGB bytes), every algorithm, and the `transparent` background
policy (under which the resampled buffer feeds the `SampleList` fold
unmodified), every entry of the final `SampleList` is exactly `(0,0,0)`. -/
theorem transparent_source_yields_black (src : List ℕ) (sw sh dw dh : ℕ)
    (mode : ScalingAlgorithm) (halpha : ∀ i : ℕ, src.getD (4 * i + 3) 0 = 0) :
    sampleList (resample src sw sh dw dh mode) = List.replicate (dw * dh) (0, 0, 0) := by
  have hpm := premultF_zero_of_alpha_zero halpha
  have hbuf : resample src sw sh dw dh mode = List.replicate (4 * (dw * dh)) 0 := by
    rw [List.eq_replicate_iff]
    refine ⟨resample_length src sw sh dw dh mode, ?_⟩
    intro b hb
    unfold resample at hb
    rcases List.mem_flatMap.mp hb with ⟨y, _, hy⟩
    rcases List.mem_flatMap.mp hy with ⟨x, _, hx⟩
    rw [sampleAt_of_premult_zero mode src sw sh dw dh x y hpm, setPixelChannels_zero] at hx
    simp only [List.mem_cons, List.not_mem_nil, or_false] at hx
    rcases hx with rfl | rfl | rfl | rfl <;> rfl
  rw [hbuf]
  unfold sampleList
  have hlen : (List.replicate (4 * (dw * dh)) (0 : ℕ)).length / 4 = dw * dh := by
    simp
  rw [hlen]
  have hmap : ∀ p ∈ List.range (dw * dh),
      (((jround (((List.replicate (4 * (dw * dh)) (0:ℕ)).getD (4 * p) 0 : ℚ) * (((List.replicate (4 * (dw * dh)) (0:ℕ)).getD (4 * p + 3) 0 : ℚ) / 255))).toNat,
        (jround (((List.replicate (4 * (dw * dh)) (0:ℕ)).getD (4 * p + 1) 0 : ℚ) * (((List.replicate (4 * (dw * dh)) (0:ℕ)).getD (4 * p + 3) 0 : ℚ) / 255))).toNat,
        (jround (((List.replicate (4 * (dw * dh)) (0:ℕ)).getD (4 * p + 2) 0 : ℚ) * (((List.replicate (4 * (dw * dh)) (0:ℕ)).getD (4 * p + 3) 0 : ℚ) / 255))).toNat)
        : ℕ × ℕ × ℕ) = ((0, 0, 0) : ℕ × ℕ × ℕ) := by
    intro p _
    rw [getD_replicate_zero, getD_replicate_zero, getD_replicate_zero, getD_replicate_zero]
    norm_num [jround_zero]
  rw [List.map_congr_left hmap]
  simp [List.map_const]

/-- **C8, witness.**  A 1×1 source with RGB `(7,9,11)` and alpha 0,
lanczos to a 1×1 grid: the SampleList is `[(0,0,0)]`. -/
theorem transparent_source_yields_black_witness :
    sampleList (resample [7, 9, 11, 0] 1 1 1 1 ScalingAlgorithm.lanczos)
      = List.replicate 1 (0, 0, 0) :=
  transparent_source_yields_black [7, 9, 11, 0] 1 1 1 1 ScalingAlgorithm.lanczos (by
    intro i
    match i with
    | 0 => rfl
    | (n + 1) => exact List.getD_eq_default _ _ (by simp; omega))

/-! ### C3 — boundary handling of kernel taps -/

lemma readIdx_bounds (sw sh : ℕ) (hsw : 1 ≤ sw) (hsh : 1 ≤ sh) (x y : ℝ) :
    0 ≤ readIdx sw sh x y ∧ readIdx sw sh x y + 3 < 4 * ((sw : ℤ) * sh) := by
  unfold readIdx
  have hx := clamp_mem (jround x) 0 ((sw : ℤ) - 1) (by omega)
  have hy := clamp_mem (jround y) 0 ((sh : ℤ) - 1) (by omega)
  set xi := clamp (jround x) 0 ((sw : ℤ) - 1) with hxi
  set yi := clamp (jround y) 0 ((sh : ℤ) - 1) with hyi
  have hswz : (1 : ℤ) ≤ sw := by exact_mod_cast hsw
  constructor
  · have : 0 ≤ yi * sw + xi := by nlinarith [hx.1, hy.1]
    nlinarith
  · have h1 : yi * sw ≤ ((sh : ℤ) - 1) * sw :=
      mul_le_mul_of_nonneg_right hy.2 (by omega)
    nlinarith [hx.2]

lemma boxTaps_mem_bounds {sw sh dw dh dx dy : ℕ} {t : ℤ × ℤ}
    (ht : t ∈ boxTaps sw sh dw dh dx dy) :
    0 ≤ t.1 ∧ t.1 < (sw : ℤ) ∧ 0 ≤ t.2 ∧ t.2 < (sh : ℤ) := by
  simp only [boxTaps] at ht
  obtain ⟨hxm, hym⟩ := tapGrid_mem ht
  have h1 := intRangeLt_mem hxm
  have h2 := intRangeLt_mem hym
  have hx0 : (0 : ℤ) ≤ ⌊(dx : ℝ) * ((sw : ℝ) / (dw : ℝ))⌋ :=
    Int.floor_nonneg.mpr (by positivity)
  have hy0 : (0 : ℤ) ≤ ⌊(dy : ℝ) * ((sh : ℝ) / (dh : ℝ))⌋ :=
    Int.floor_nonneg.mpr (by positivity)
  have hx1 : min ⌈((dx : ℝ) + 1) * ((sw : ℝ) / (dw : ℝ))⌉ (sw : ℤ) ≤ (sw : ℤ) := min_le_right _ _
  have hy1 : min ⌈((dy : ℝ) + 1) * ((sh : ℝ) / (dh : ℝ))⌉ (sh : ℤ) ≤ (sh : ℤ) := min_le_right _ _
  exact ⟨by omega, by omega, by omega, by omega⟩

/-- **C3, amended.**  In the current (ImageImportModal) revision every
source fetch performed during kernel evaluation lands inside the
premultiplied buffer: the bilinear/bicubic/lanczos taps go through
`readPixel`, which clamps the rounded x into `[0, sw-1]` and y into
`[0, sh-1]`, and the box footprint is in-bounds by construction (it is
intersected with the buffer, not clamped).  Hence every fetched flat index
`i` satisfies `0 ≤ i` and `i + 3 < 4*sw*sh` and reads a defined
premultiplied value.  (As claimed, out-of-range tap *coordinates* are
normal; what the superseded App.tsx bilinear path violates — see the
counterexample — is that they always get clamped.) -/
theorem resample_reads_in_bounds (mode : ScalingAlgorithm) (sw sh dw dh dx dy : ℕ)
    (hsw : 1 ≤ sw) (hsh : 1 ≤ sh) :
    ∀ i ∈ readIdxs mode sw sh dw dh dx dy, 0 ≤ i ∧ i + 3 < 4 * ((sw : ℤ) * sh) := by
  intro i hi
  cases mode
  case box =>
    simp only [readIdxs] at hi
    rcases List.mem_map.mp hi with ⟨t, ht, rfl⟩
    obtain ⟨ht1, ht2, ht3, ht4⟩ := boxTaps_mem_bounds ht
    constructor
    · nlinarith
    · nlinarith
  case bilinear =>
    simp only [readIdxs, List.mem_cons, List.not_mem_nil, or_false] at hi
    rcases hi with rfl | rfl | rfl | rfl
    all_goals exact readIdx_bounds sw sh hsw hsh _ _
  case bicubic =>
    simp only [readIdxs] at hi
    rcases List.mem_map.mp hi with ⟨t, _, rfl⟩
    exact readIdx_bounds sw sh hsw hsh _ _
  case lanczos =>
    simp only [readIdxs] at hi
    rcases List.mem_map.mp hi with ⟨t, _, rfl⟩
    exact readIdx_bounds sw sh hsw hsh _ _

/-- **C3, amended witness.**  Instantiation: 1×1 source, 1×1 grid,
bilinear; the first tap index is 0, which is in bounds. -/
theorem resample_reads_in_bounds_witness :
    (0 : ℤ) ≤ 0 ∧ (0 : ℤ) + 3 < 4 * ((1 : ℤ) * 1) := by
  have h0 : (0 : ℤ) ∈ readIdxs ScalingAlgorithm.bilinear 1 1 1 1 0 0 := by
    have hsx : ((0 : ℝ) + 0.5) * ((1 : ℝ) / (1 : ℝ)) - 0.5 = 0 := by norm_num
    have hidx : readIdx 1 1 ((⌊((0 : ℝ) + 0.5) * ((1 : ℝ) / (1 : ℝ)) - 0.5⌋ : ℤ) : ℝ)
        ((⌊((0 : ℝ) + 0.5) * ((1 : ℝ) / (1 : ℝ)) - 0.5⌋ : ℤ) : ℝ) = 0 := by
      rw [hsx]
      unfold readIdx clamp jround
      norm_num
    simp only [readIdxs, List.mem_cons]
    left
    push_cast
    rw [← hidx]
  exact resample_reads_in_bounds ScalingAlgorithm.bilinear 1 1 1 1 0 0 (by decide) (by decide)
    0 h0

/-- **C3, counterexample.**  The claim says *every* fetch first clamps its
coordinates, so every read is in-bounds.  In the App.tsx revision's
`bilinearSample` (the cited `read`, lines 316-319) the floor tap is not
clamped: upscaling a 1×1 source to 2×1, destination pixel 0 computes
`sx = -0.25`, `x0 = -1`, and fetches flat index `-4` — outside `[0, 4*sw*sh)`,
a JS `Float32Array` read yielding `undefined`. -/
theorem bilinearApp_reads_out_of_bounds :
    (-4 : ℤ) ∈ bilinearAppReadIdxs 1 1 2 1 0 0 ∧ ((-4 : ℤ) < 0) := by
  have hlist : bilinearAppReadIdxs 1 1 2 1 0 0 = [-4, 0, -4, 0] := by
    have hc : ⌈(-(1 / 4) : ℚ)⌉ = 0 := by
      rw [Int.ceil_eq_iff]
      norm_num
    simp only [bilinearAppReadIdxs]
    norm_num [hc]
  rw [hlist]
  exact ⟨by simp, by norm_num⟩

/-! ### C9 — the source buffer is never written -/

lemma foldl_src_eq {β : Type} (f : RState → β → RState)
    (hf : ∀ s b, (f s b).src = s.src) :
    ∀ (l : List β) (s : RState), (l.foldl f s).src = s.src := by
  intro l
  induction l with
  | nil => intro s; rfl
  | cons a l ih =>
      intro s
      rw [List.foldl_cons, ih, hf]

/-- **C9.**  `resample` never writes the caller's source buffer: running the
engine's write sequence (premultiply stores into the fresh `premult` array,
`setPixel` stores into the fresh `dst` array) leaves every byte of `src`
unchanged. -/
theorem resampleSt_preserves_src (st : RState) (sw sh dw dh : ℕ) (mode : ScalingAlgorithm) :
    (resampleSt st sw sh dw dh mode).src = st.src := by
  unfold resampleSt
  have hset : ∀ (s : RState) (y : ℕ),
      ((List.range dw).foldl (setPixelStep sw sh dw dh mode y) s).src = s.src := fun s y =>
    foldl_src_eq (setPixelStep sw sh dw dh mode y) (fun s2 x => rfl) (List.range dw) s
  have hpm : ∀ (l : List ℕ) (s : RState), (l.foldl premultStep s).src = s.src :=
    foldl_src_eq premultStep (fun s p => rfl)
  refine Eq.trans (foldl_src_eq _ (fun s y => hset s y) _ _) ?_
  exact hpm _ _

/-! ### C2 — constant-white upscale -/

/-- **C2, counterexample.**  The claim quantifies over *every* scaling
algorithm, and its sources cite both revisions of `bilinearSample`.  In the
App.tsx revision, upscaling the 1×1 opaque white source to a 2×1 grid makes
destination pixel 0 read flat index −4 (`undefined`); the NaN poisons the
whole sample, `NaN > 0` is false in `setPixel`, and the stored pixel is
fully transparent black, not opaque white. -/
theorem bilinearApp_white_upscale_not_white :
    resampleAppBilinear [255, 255, 255, 255] 1 1 2 1 = [0, 0, 0, 0, 255, 255, 255, 255] ∧
    (resampleAppBilinear [255, 255, 255, 255] 1 1 2 1).getD 3 0 ≠ 255 := by
  have hpix0 : bilinearSampleApp [255, 255, 255, 255] 1 1 2 1 0 0 = (none, none, none, none) := by
    have hc : ⌈(-(1 / 4) : ℚ)⌉ = 0 := by
      rw [Int.ceil_eq_iff]
      norm_num
    simp only [bilinearSampleApp]
    norm_num [hc, readApp, olerp]
  have hpix1 : bilinearSampleApp [255, 255, 255, 255] 1 1 2 1 1 0 = (some 255, some 255, some 255, some 255) := by
    have hf : ⌊(1 / 4 : ℚ)⌋ = 0 := by norm_num
    have hc : ⌈(1 / 4 : ℚ)⌉ = 1 := by
      rw [Int.ceil_eq_iff]
      norm_num
    simp only [bilinearSampleApp]
    norm_num [hf, hc, readApp, olerp, premultQ, List.getD]
    simp
  have hres : resampleAppBilinear [255, 255, 255, 255] 1 1 2 1
      = setPixelChannelsO (bilinearSampleApp [255, 255, 255, 255] 1 1 2 1 0 0)
        ++ setPixelChannelsO (bilinearSampleApp [255, 255, 255, 255] 1 1 2 1 1 0) := by
    simp [resampleAppBilinear, List.range_succ]
  rw [hres, hpix0, hpix1]
  have h0 : setPixelChannelsO ((none, none, none, none) :
      Option ℚ × Option ℚ × Option ℚ × Option ℚ) = [0, 0, 0, 0] := by
    simp [setPixelChannelsO, unpremultChannelO, toU8CO]
  have h1 : setPixelChannelsO ((some 255, some 255, some 255, some 255) :
      Option ℚ × Option ℚ × Option ℚ × Option ℚ) = [255, 255, 255, 255] := by
    simp only [setPixelChannelsO, unpremultChannelO, toU8CO, toU8C, clamp, jround]
    norm_num
    simp
  rw [h0, h1]
  exact ⟨rfl, by simp⟩

/-! ### Pixel extraction and uniform-source infrastructure -/

lemma sum_flatMap_list {α : Type} (l : List α) (f : α → List ℝ) :
    (l.flatMap f).sum = (l.map (fun a => (f a).sum)).sum := by
  rw [List.flatMap_def, List.sum_flatten, List.map_map]
  rfl

lemma tapGrid_sum_prod (xs ys : List ℤ) (F G : ℤ → ℝ) :
    ((tapGrid xs ys).map (fun t => F t.1 * G t.2)).sum = (xs.map F).sum * (ys.map G).sum := by
  unfold tapGrid
  rw [List.map_flatMap, sum_flatMap_list]
  have h : ∀ y : ℤ, (((xs.map (fun x => (x, y))).map (fun t : ℤ × ℤ => F t.1 * G t.2)).sum)
      = (xs.map F).sum * G y := by
    intro y
    rw [List.map_map]
    have hcomp : (fun t : ℤ × ℤ => F t.1 * G t.2) ∘ (fun x => (x, y))
        = fun x => F x * G y := rfl
    rw [hcomp, List.sum_map_mul_right]
  calc (ys.map fun y => ((xs.map fun x => (x, y)).map fun t : ℤ × ℤ => F t.1 * G t.2).sum).sum
      = (ys.map fun y => (xs.map F).sum * G y).sum := by
        apply congrArg
        exact List.map_congr_left (fun y _ => h y)
    _ = (xs.map F).sum * (ys.map G).sum := List.sum_map_mul_left ys G ((xs.map F).sum)

lemma setPixelChannels_length (s : ℝ × ℝ × ℝ × ℝ) : (setPixelChannels s).length = 4 := rfl

lemma range_flatMap_getD {α : Type} (d : α) (m : ℕ) :
    ∀ (n : ℕ) (f : ℕ → List α) (k c : ℕ), (∀ b : ℕ, (f b).length = m) → k < n → c < m →
      ((List.range n).flatMap f).getD (m * k + c) d = (f k).getD c d := by
  intro n
  induction n with
  | zero => intro f k c hf hk hc; omega
  | succ n ih =>
      intro f k c hf hk hc
      rw [List.range_succ_eq_map, List.flatMap_cons]
      cases k with
      | zero =>
          simp only [Nat.mul_zero, Nat.zero_add]
          exact List.getD_append _ _ _ _ (by rw [hf 0]; exact hc)
      | succ k =>
          have hm : (f 0).length ≤ m * (k + 1) + c := by
            rw [hf 0]
            exact le_trans (Nat.le_mul_of_pos_right m (by omega)) (Nat.le_add_right _ _)
          rw [List.getD_append_right _ _ _ _ hm]
          have hmap : (List.map Nat.succ (List.range n)).flatMap f
              = (List.range n).flatMap (fun i => f (i + 1)) := by
            rw [List.flatMap_map]
          have harith : m * (k + 1) + c - (f 0).length = m * k + c := by
            rw [hf 0, Nat.mul_succ]
            omega
          rw [hmap, harith]
          exact ih (fun i => f (i + 1)) k c (fun b => hf (b + 1)) (by omega) hc

lemma resample_row_length (src : List ℕ) (sw sh dw dh : ℕ) (mode : ScalingAlgorithm) (y : ℕ) :
    ((List.range dw).flatMap (fun x => setPixelChannels (sampleAt mode src sw sh dw dh x y))).length
      = 4 * dw := by
  rw [List.length_flatMap]
  calc ((List.range dw).map
          (List.length ∘ fun x => setPixelChannels (sampleAt mode src sw sh dw dh x y))).sum
      = ((List.range dw).map (fun _ => 4)).sum := by
        apply congrArg
        exact List.map_congr_left (fun x _ => rfl)
    _ = 4 * dw := by simp [List.map_const, Nat.mul_comm]

lemma resample_getD (src : List ℕ) (sw sh dw dh : ℕ) (mode : ScalingAlgorithm) (x y c : ℕ)
    (hx : x < dw) (hy : y < dh) (hc : c < 4) :
    (resample src sw sh dw dh mode).getD (4 * (y * dw + x) + c) 0
      = (setPixelChannels (sampleAt mode src sw sh dw dh x y)).getD c 0 := by
  unfold resample
  have hidx : 4 * (y * dw + x) + c = (4 * dw) * y + (4 * x + c) := by ring
  rw [hidx]
  rw [range_flatMap_getD 0 (4 * dw) dh _ y (4 * x + c)
    (fun b => resample_row_length src sw sh dw dh mode b) hy (by omega)]
  exact range_flatMap_getD 0 4 dw _ x c (fun b => rfl) hx hc

lemma uniformSrc_getD (sw sh r g b a i : ℕ) (hi : i < 4 * (sw * sh)) :
    (uniformSrc sw sh r g b a).getD i 0 = [r, g, b, a].getD (i % 4) 0 := by
  unfold uniformSrc
  rw [List.getD_eq_getElem _ _ (by simpa using hi)]
  simp

lemma premultF_uniform (sw sh r g b : ℕ) (idx : ℤ) (h0 : 0 ≤ idx)
    (hlt : idx < 4 * ((sw : ℤ) * sh)) :
    premultF (uniformSrc sw sh r g b 255) idx = ([r, g, b, 255].getD (idx.toNat % 4) 0 : ℕ) := by
  unfold premultF
  rw [if_pos h0]
  have hm : idx < 4 * ((sw * sh : ℕ) : ℤ) := by
    push_cast
    linarith
  have hnat : idx.toNat < 4 * (sw * sh) := by omega
  have halpha : 4 * (idx.toNat / 4) + 3 < 4 * (sw * sh) := by omega
  rw [uniformSrc_getD sw sh r g b 255 idx.toNat hnat,
      uniformSrc_getD sw sh r g b 255 _ halpha]
  have h3 : (4 * (idx.toNat / 4) + 3) % 4 = 3 := by omega
  rw [h3]
  split
  · rfl
  · show ([r, g, b, 255].getD (idx.toNat % 4) 0 : ℝ) * (((255 : ℕ) : ℝ) / 255)
      = (([r, g, b, 255].getD (idx.toNat % 4) 0 : ℕ) : ℝ)
    norm_num

lemma mix_self (a t : ℝ) : a + (a - a) * t = a := by ring

lemma setPixelChannels_opaque (r g b : ℕ) (hr : r ≤ 255) (hg : g ≤ 255) (hb : b ≤ 255) :
    setPixelChannels ((r : ℝ), (g : ℝ), (b : ℝ), (255 : ℝ)) = [r, g, b, 255] := by
  have hch : ∀ v : ℕ, v ≤ 255 → unpremultChannel (v : ℝ) 255 = v := by
    intro v hv
    unfold unpremultChannel
    rw [if_pos (by norm_num : (255 : ℝ) > 0)]
    rw [if_pos (by norm_num : (255 : ℝ) > 0), if_pos (by norm_num : (255 : ℝ) > 0)]
    have hval : (v : ℝ) * (255 / 255) = ((v : ℕ) : ℝ) := by norm_num
    rw [hval, jround_natCast]
    unfold clamp
    rw [min_eq_right (by exact_mod_cast hv), max_eq_right (by positivity)]
    simp
  have halpha : toU8C (255 : ℝ) = 255 := by
    unfold toU8C
    rw [if_neg (by norm_num), if_pos (by norm_num)]
  unfold setPixelChannels
  rw [hch r hr, hch g hg, hch b hb, halpha]

/-! ### C5 — box filter on a uniform opaque source -/

lemma box_axis_lt (s d i : ℕ) (hd : 1 ≤ d) (hds : d ≤ s) (hi : i < d) :
    ⌊(i : ℝ) * ((s : ℝ) / (d : ℝ))⌋ < min ⌈((i : ℝ) + 1) * ((s : ℝ) / (d : ℝ))⌉ (s : ℤ) := by
  have hd0 : (0 : ℝ) < d := by
    have : (1 : ℝ) ≤ d := by exact_mod_cast hd
    linarith
  have hdmul : (d : ℝ) * ((s : ℝ) / (d : ℝ)) = s := by
    field_simp
  have hscale : (1 : ℝ) ≤ (s : ℝ) / (d : ℝ) := by
    rw [le_div_iff₀ hd0]
    have : (d : ℝ) ≤ s := by exact_mod_cast hds
    linarith
  rw [lt_min_iff]
  constructor
  · have hstep : (i : ℝ) * ((s : ℝ) / (d : ℝ)) + 1 ≤ ((i : ℝ) + 1) * ((s : ℝ) / (d : ℝ)) := by
      nlinarith
    have hfl := Int.floor_le ((i : ℝ) * ((s : ℝ) / (d : ℝ)))
    have hce := Int.le_ceil (((i : ℝ) + 1) * ((s : ℝ) / (d : ℝ)))
    have hcast : ((⌊(i : ℝ) * ((s : ℝ) / (d : ℝ))⌋ : ℝ)) + 1
        ≤ (⌈((i : ℝ) + 1) * ((s : ℝ) / (d : ℝ))⌉ : ℝ) := by linarith
    exact_mod_cast hcast
  · rw [Int.floor_lt]
    have hi1 : (i : ℝ) ≤ (d : ℝ) - 1 := by
      have : (i : ℝ) + 1 ≤ d := by exact_mod_cast hi
      linarith
    push_cast
    nlinarith

lemma boxTaps_length_pos (sw sh dw dh dx dy : ℕ) (hdw : 1 ≤ dw) (hdh : 1 ≤ dh)
    (hws : dw ≤ sw) (hhs : dh ≤ sh) (hx : dx < dw) (hy : dy < dh) :
    (boxTaps sw sh dw dh dx dy).length ≠ 0 := by
  have hxlt := box_axis_lt sw dw dx hdw hws hx
  have hylt := box_axis_lt sh dh dy hdh hhs hy
  simp only [boxTaps, tapGrid_length]
  intro hcontra
  rcases Nat.mul_eq_zero.mp hcontra with hzero | hzero
  all_goals simp only [intRangeLt, List.length_map, List.length_range] at hzero
  · omega
  · omega

lemma boxSample_const (src : List ℕ) (sw sh dw dh dx dy : ℕ) (v0 v1 v2 v3 : ℝ)
    (hpm : ∀ t ∈ boxTaps sw sh dw dh dx dy, ∀ c : ℕ, c < 4 →
      premultF src ((t.2 * (sw : ℤ) + t.1) * 4 + c) = [v0, v1, v2, v3].getD c 0)
    (hne : (boxTaps sw sh dw dh dx dy).length ≠ 0) :
    boxSample src sw sh dw dh dx dy = (v0, v1, v2, v3) := by
  have hsum : ∀ c : ℕ, c < 4 → ((boxTaps sw sh dw dh dx dy).map
      (fun t => premultF src ((t.2 * (sw : ℤ) + t.1) * 4 + c))).sum
      = ((boxTaps sw sh dw dh dx dy).length : ℝ) * [v0, v1, v2, v3].getD c 0 := by
    intro c hc
    rw [List.map_congr_left (fun t ht => hpm t ht c hc)]
    simp [List.map_const, List.sum_replicate, nsmul_eq_mul]
  have hlc : ((boxTaps sw sh dw dh dx dy).length : ℝ) ≠ 0 := by
    exact_mod_cast hne
  simp only [boxSample]
  rw [if_neg hne]
  have hcomp : ∀ c : ℕ, c < 4 → ((boxTaps sw sh dw dh dx dy).map
      (fun t => premultF src ((t.2 * (sw : ℤ) + t.1) * 4 + c))).sum
        / ((boxTaps sw sh dw dh dx dy).length : ℝ) = [v0, v1, v2, v3].getD c 0 := by
    intro c hc
    rw [hsum c hc]
    exact mul_div_cancel_left₀ _ hlc
  have h0 := hcomp 0 (by omega)
  have h1 := hcomp 1 (by omega)
  have h2 := hcomp 2 (by omega)
  have h3 := hcomp 3 (by omega)
  simp only [List.getD] at h0 h1 h2 h3
  rw [Prod.ext_iff, Prod.ext_iff, Prod.ext_iff]
  exact ⟨h0, h1, h2, h3⟩

/-- **C5.**  Resampling a uniform fully-opaque source of any size with the
box filter to any strictly smaller grid reproduces the source color
exactly: every destination pixel is `[r, g, b, 255]` and every SampleList
triple is `(r, g, b)`. -/
theorem box_uniform_downscale (sw sh dw dh r g b : ℕ)
    (hr : r ≤ 255) (hg : g ≤ 255) (hb : b ≤ 255)
    (hdw : 1 ≤ dw) (hdh : 1 ≤ dh) (hws : dw < sw) (hhs : dh < sh) :
    (∀ x y c : ℕ, x < dw → y < dh → c < 4 →
      (resample (uniformSrc sw sh r g b 255) sw sh dw dh ScalingAlgorithm.box).getD
        (4 * (y * dw + x) + c) 0 = [r, g, b, 255].getD c 0) ∧
    sampleList (resample (uniformSrc sw sh r g b 255) sw sh dw dh ScalingAlgorithm.box)
      = List.replicate (dw * dh) (r, g, b) := by
  have hbox : ∀ x y : ℕ, x < dw → y < dh →
      boxSample (uniformSrc sw sh r g b 255) sw sh dw dh x y
        = ((r : ℝ), (g : ℝ), (b : ℝ), (255 : ℝ)) := by
    intro x y hx hy
    apply boxSample_const
    · intro t ht c hc
      obtain ⟨ht1, ht2, ht3, ht4⟩ := boxTaps_mem_bounds ht
      have hswz : (0 : ℤ) ≤ (sw : ℤ) := by positivity
      have hidx0 : 0 ≤ (t.2 * (sw : ℤ) + t.1) * 4 + c := by
        have : 0 ≤ t.2 * (sw : ℤ) := mul_nonneg ht3 hswz
        positivity
      have hidxlt : (t.2 * (sw : ℤ) + t.1) * 4 + c < 4 * ((sw : ℤ) * sh) := by
        have h1 : t.2 * (sw : ℤ) ≤ ((sh : ℤ) - 1) * sw :=
          mul_le_mul_of_nonneg_right (by omega) hswz
        have hc4 : (c : ℤ) < 4 := by exact_mod_cast hc
        nlinarith
      rw [premultF_uniform sw sh r g b _ hidx0 hidxlt]
      have hmod : ((t.2 * (sw : ℤ) + t.1) * 4 + c).toNat % 4 = c := by
        have hk : 0 ≤ t.2 * (sw : ℤ) + t.1 := by
          have : 0 ≤ t.2 * (sw : ℤ) := mul_nonneg ht3 hswz
          omega
        omega
      rw [hmod]
      interval_cases c <;> simp
    · exact boxTaps_length_pos sw sh dw dh x y hdw hdh (by omega) (by omega) hx hy
  have hchan : ∀ x y c : ℕ, x < dw → y < dh → c < 4 →
      (resample (uniformSrc sw sh r g b 255) sw sh dw dh ScalingAlgorithm.box).getD
        (4 * (y * dw + x) + c) 0 = [r, g, b, 255].getD c 0 := by
    intro x y c hx hy hc
    rw [resample_getD _ sw sh dw dh _ x y c hx hy hc]
    have hsamp : sampleAt ScalingAlgorithm.box (uniformSrc sw sh r g b 255) sw sh dw dh x y
        = ((r : ℝ), (g : ℝ), (b : ℝ), (255 : ℝ)) := hbox x y hx hy
    rw [hsamp, setPixelChannels_opaque r g b hr hg hb]
  refine ⟨hchan, ?_⟩
  have hlen : (resample (uniformSrc sw sh r g b 255) sw sh dw dh ScalingAlgorithm.box).length
      = 4 * (dw * dh) := resample_length _ sw sh dw dh _
  rw [List.eq_replicate_iff]
  constructor
  · unfold sampleList
    rw [List.length_map, List.length_range, hlen]
    omega
  intro tr htr
  unfold sampleList at htr
  rcases List.mem_map.mp htr with ⟨p, hp, rfl⟩
  have hp2 : p < dw * dh := by
    rw [List.mem_range, hlen] at hp
    omega
  have hxb : p % dw < dw := Nat.mod_lt _ (by omega)
  have hyb : p / dw < dh := by
    refine (Nat.div_lt_iff_lt_mul (show 0 < dw by omega)).mpr ?_
    calc p < dw * dh := hp2
      _ = dh * dw := Nat.mul_comm _ _
  have hsplit : (p / dw) * dw + p % dw = p := Nat.div_add_mod' p dw
  have hv : ∀ c : ℕ, c < 4 →
      (resample (uniformSrc sw sh r g b 255) sw sh dw dh ScalingAlgorithm.box).getD
        (4 * p + c) 0 = [r, g, b, 255].getD c 0 := by
    intro c hc
    have h4 : 4 * p + c = 4 * ((p / dw) * dw + p % dw) + c := by rw [hsplit]
    rw [h4]
    exact hchan (p % dw) (p / dw) c hxb hyb hc
  rw [show 4 * p = 4 * p + 0 from rfl, hv 0 (by omega), hv 1 (by omega), hv 2 (by omega),
      hv 3 (by omega)]
  have hfold : ∀ v : ℕ, v ≤ 255 →
      (jround (([v, g, b, 255].getD 0 0 : ℚ) * (((255 : ℕ) : ℚ) / 255))).toNat = v := by
    intro v _
    simp only [List.getD]
    norm_num [jround_natCast]
  simp only [List.getD]
  norm_num [jround_natCast]

/-- **C5, witness.**  The spec scenario: a 4×4 solid red `[255,0,0,255]`
source, full crop, 2×2 box target: the SampleList is four `(255,0,0)`
triples. -/
theorem box_uniform_downscale_witness :
    sampleList (resample (uniformSrc 4 4 255 0 0 255) 4 4 2 2 ScalingAlgorithm.box)
      = List.replicate (2 * 2) (255, 0, 0) :=
  (box_uniform_downscale 4 4 2 2 255 0 0 (by decide) (by decide) (by decide)
    (by decide) (by decide) (by decide) (by decide)).2

/-! ### C2 — Lanczos weight-sum analysis

The separable Lanczos-3 weight of one axis tap at distance `d` is
`sinc d * sinc (d/3)`, abbreviated `LW`.  For a destination coordinate
with fractional part `f ∈ [0,1)`, the six taps of one axis sit at
distances `f+2, f+1, f, f-1, f-2, f-3`; we show their weight sum is
strictly positive, so the `weightSum || 1` normalization divides by the
true (nonzero) sum and a constant field is reproduced exactly. -/

/-- One axis factor of the Lanczos weight: `sinc d * sinc (d/3)`. -/
noncomputable def LW (d : ℝ) : ℝ := sinc d * sinc (d / 3)

lemma sinc_neg_one : sinc (-1) = 0 := by
  unfold sinc
  rw [if_neg (by norm_num)]
  rw [show Real.pi * (-1) = -Real.pi by ring, Real.sin_neg, Real.sin_pi]
  norm_num

lemma LW_two : LW 2 = 0 := by
  unfold LW sinc
  rw [if_neg (by norm_num : (2 : ℝ) ≠ 0)]
  rw [show Real.pi * 2 = 2 * Real.pi by ring, Real.sin_two_pi]
  norm_num

lemma LW_one : LW 1 = 0 := by
  unfold LW sinc
  rw [if_neg (by norm_num : (1 : ℝ) ≠ 0)]
  rw [show Real.pi * 1 = Real.pi by ring, Real.sin_pi]
  norm_num

lemma LW_zero : LW 0 = 1 := by
  unfold LW sinc
  norm_num

lemma LW_neg_one : LW (-1) = 0 := by
  unfold LW sinc
  rw [if_neg (by norm_num : (-1 : ℝ) ≠ 0)]
  rw [show Real.pi * (-1) = -Real.pi by ring, Real.sin_neg, Real.sin_pi]
  norm_num

lemma LW_neg_two : LW (-2) = 0 := by
  unfold LW sinc
  rw [if_neg (by norm_num : (-2 : ℝ) ≠ 0)]
  rw [show Real.pi * (-2) = -(2 * Real.pi) by ring, Real.sin_neg, Real.sin_two_pi]
  norm_num

lemma LW_neg_three : LW (-3) = 0 := by
  unfold LW
  rw [show (-3 : ℝ) / 3 = -1 by norm_num, sinc_neg_one]
  norm_num

lemma LW_rewrite (d : ℝ) (hd : d ≠ 0) :
    LW d = 3 * (Real.sin (Real.pi * d) * Real.sin (Real.pi * d / 3)) / (Real.pi ^ 2 * d ^ 2) := by
  unfold LW sinc
  rw [if_neg hd, if_neg (by intro h; exact hd (by linarith))]
  have hpi := Real.pi_ne_zero
  rw [show Real.pi * (d / 3) = Real.pi * d / 3 by ring]
  field_simp
  ring

/-- Jordan-inequality-based comparison: the positive central-side tap at
distance `u` dominates the negative tap at distance `u+1`, for
`u ∈ (0, 1]`. -/
lemma sinc_pair_key (u : ℝ) (h0 : 0 < u) (h1 : u ≤ 1) :
    Real.sin (Real.pi * u / 3 + Real.pi / 3) / (u + 1) ^ 2 ≤ Real.sin (Real.pi * u / 3) / u ^ 2 := by
  have hpi := Real.pi_pos
  have hs : 2 * u / 3 ≤ Real.sin (Real.pi * u / 3) := by
    have hle : Real.pi * u / 3 ≤ Real.pi / 2 := by nlinarith
    have h := Real.mul_le_sin (x := Real.pi * u / 3) (by positivity) hle
    calc 2 * u / 3 = 2 / Real.pi * (Real.pi * u / 3) := by
          field_simp
          ring
      _ ≤ _ := h
  have hub : Real.sin (Real.pi * u / 3 + Real.pi / 3) ≤ 1 := Real.sin_le_one _
  have h2 : Real.sin (Real.pi * u / 3 + Real.pi / 3) / (u + 1) ^ 2 ≤ 1 / (u + 1) ^ 2 := by
    gcongr
  have h3 : 1 / (u + 1) ^ 2 ≤ (2 * u / 3) / u ^ 2 := by
    rw [div_le_div_iff₀ (by positivity) (by positivity)]
    nlinarith
  have h4 : (2 * u / 3) / u ^ 2 ≤ Real.sin (Real.pi * u / 3) / u ^ 2 := by
    gcongr
  linarith

/-- The six-tap Lanczos-3 axis weight sum is strictly positive for every
fractional offset `f ∈ [0, 1)`. -/
lemma lanczos_six_sum_pos (f : ℝ) (h0 : 0 ≤ f) (h1 : f < 1) :
    0 < LW (f + 2) + LW (f + 1) + LW f + LW (f - 1) + LW (f - 2) + LW (f - 3) := by
  rcases eq_or_lt_of_le h0 with hf0 | hf0
  · rw [← hf0]
    norm_num [LW_two, LW_one, LW_zero, LW_neg_one, LW_neg_two, LW_neg_three]
  · have hpi := Real.pi_pos
    have hP : 0 < Real.sin (Real.pi * f) :=
      Real.sin_pos_of_pos_of_lt_pi (by positivity) (by nlinarith)
    have hg : 0 < Real.sin (Real.pi * f / 3) :=
      Real.sin_pos_of_pos_of_lt_pi (by positivity) (by nlinarith)
    have hA : 0 < LW (f + 2) := by
      rw [LW_rewrite _ (by nlinarith)]
      have hs1 : Real.sin (Real.pi * (f + 2)) = Real.sin (Real.pi * f) := by
        rw [show Real.pi * (f + 2) = Real.pi * f + 2 * Real.pi by ring, Real.sin_add_two_pi]
      have hs2 : 0 < Real.sin (Real.pi * (f + 2) / 3) := by
        apply Real.sin_pos_of_pos_of_lt_pi
        · positivity
        · nlinarith
      rw [hs1]
      positivity
    have hD : 0 < LW (f - 3) := by
      rw [LW_rewrite _ (by nlinarith)]
      have hs1 : Real.sin (Real.pi * (f - 3)) = -Real.sin (Real.pi * f) := by
        rw [show Real.pi * (f - 3) = (Real.pi * f - Real.pi) - 2 * Real.pi by ring,
           Real.sin_sub_two_pi, Real.sin_sub_pi]
      have hs2 : Real.sin (Real.pi * (f - 3) / 3) = -Real.sin (Real.pi * f / 3) := by
        rw [show Real.pi * (f - 3) / 3 = Real.pi * f / 3 - Real.pi by ring, Real.sin_sub_pi]
      rw [hs1, hs2]
      have hne : (f - 3) ^ 2 > 0 := by nlinarith
      rw [show -Real.sin (Real.pi * f) * -Real.sin (Real.pi * f / 3)
          = Real.sin (Real.pi * f) * Real.sin (Real.pi * f / 3) by ring]
      positivity
    have hB : 0 ≤ LW f + LW (f + 1) := by
      have hLf : LW f = 3 * (Real.sin (Real.pi * f) * Real.sin (Real.pi * f / 3))
          / (Real.pi ^ 2 * f ^ 2) := LW_rewrite f (by nlinarith)
      have hLf1 : LW (f + 1) = 3 * (-Real.sin (Real.pi * f)
          * Real.sin (Real.pi * f / 3 + Real.pi / 3)) / (Real.pi ^ 2 * (f + 1) ^ 2) := by
        rw [LW_rewrite _ (by nlinarith)]
        rw [show Real.pi * (f + 1) = Real.pi * f + Real.pi by ring, Real.sin_add_pi]
        rw [show (Real.pi * f + Real.pi) / 3 = Real.pi * f / 3 + Real.pi / 3 by ring]
      have hkey := sinc_pair_key f hf0 (le_of_lt h1)
      have hfact : LW f + LW (f + 1) = (3 * Real.sin (Real.pi * f) / Real.pi ^ 2)
          * (Real.sin (Real.pi * f / 3) / f ^ 2
             - Real.sin (Real.pi * f / 3 + Real.pi / 3) / (f + 1) ^ 2) := by
        rw [hLf, hLf1]
        have hf2 : f ^ 2 ≠ 0 := by positivity
        have hf12 : (f + 1) ^ 2 ≠ 0 := by positivity
        have hp2 : Real.pi ^ 2 ≠ 0 := by positivity
        field_simp
        ring
      rw [hfact]
      apply mul_nonneg
      · positivity
      · linarith
    have hC : 0 ≤ LW (f - 1) + LW (f - 2) := by
      set u : ℝ := 1 - f with hu
      have hu0 : 0 < u := by simp [hu]; linarith
      have hu1 : u ≤ 1 := by simp [hu]; linarith
      have hLm1 : LW (f - 1) = 3 * (Real.sin (Real.pi * f)
          * Real.sin (Real.pi * u / 3)) / (Real.pi ^ 2 * u ^ 2) := by
        rw [LW_rewrite _ (by nlinarith)]
        have hs1 : Real.sin (Real.pi * (f - 1)) = -Real.sin (Real.pi * f) := by
          rw [show Real.pi * (f - 1) = Real.pi * f - Real.pi by ring, Real.sin_sub_pi]
        have hs2 : Real.sin (Real.pi * (f - 1) / 3) = -Real.sin (Real.pi * u / 3) := by
          rw [show Real.pi * (f - 1) / 3 = -(Real.pi * u / 3) by rw [hu]; ring, Real.sin_neg]
        rw [hs1, hs2, show (f - 1) ^ 2 = u ^ 2 by rw [hu]; ring]
        ring
      have hLm2 : LW (f - 2) = 3 * (-Real.sin (Real.pi * f)
          * Real.sin (Real.pi * u / 3 + Real.pi / 3)) / (Real.pi ^ 2 * (u + 1) ^ 2) := by
        rw [LW_rewrite _ (by nlinarith)]
        have hs1 : Real.sin (Real.pi * (f - 2)) = Real.sin (Real.pi * f) := by
          rw [show Real.pi * (f - 2) = Real.pi * f - 2 * Real.pi by ring, Real.sin_sub_two_pi]
        have hs2 : Real.sin (Real.pi * (f - 2) / 3)
            = -Real.sin (Real.pi * u / 3 + Real.pi / 3) := by
          rw [show Real.pi * (f - 2) / 3 = -(Real.pi * (1 - f) / 3 + Real.pi / 3) by ring,
             Real.sin_neg]
        rw [hs1, hs2]
        rw [show (f - 2) ^ 2 = (u + 1) ^ 2 by rw [hu]; ring]
        ring
      have hkey := sinc_pair_key u hu0 hu1
      have hfact : LW (f - 1) + LW (f - 2) = (3 * Real.sin (Real.pi * f) / Real.pi ^ 2)
          * (Real.sin (Real.pi * u / 3) / u ^ 2
             - Real.sin (Real.pi * u / 3 + Real.pi / 3) / (u + 1) ^ 2) := by
        rw [hLm1, hLm2]
        have hu2 : u ^ 2 ≠ 0 := by positivity
        have hu12 : (u + 1) ^ 2 ≠ 0 := by positivity
        field_simp
        ring
      rw [hfact]
      apply mul_nonneg
      · positivity
      · linarith
    linarith

lemma clamp_zero_zero (v : ℤ) : clamp v 0 0 = 0 := max_eq_left (min_le_left 0 v)

/-- On a 1×1 source, `readPixel` clamps every tap to the single pixel; on
the opaque white source it returns 255 on all four channels. -/
lemma readPixel_one_white (x y : ℝ) (c : ℕ) (hc : c < 4) :
    readPixel 1 1 (premultF (uniformSrc 1 1 255 255 255 255)) x y c = 255 := by
  unfold readPixel readIdx
  rw [show ((1 : ℕ) : ℤ) - 1 = 0 by norm_num]
  rw [clamp_zero_zero, clamp_zero_zero]
  rw [show ((0 : ℤ) * ((1 : ℕ) : ℤ) + 0) * 4 + (c : ℤ) = (c : ℤ) by ring]
  rw [premultF_uniform 1 1 255 255 255 (c : ℤ) (by positivity)
    (by exact_mod_cast (by omega : c < 4 * (1 * 1)))]
  rw [Int.toNat_natCast]
  interval_cases c <;> rfl

/-- `bilinearSample` of the current revision reproduces the 1×1 opaque
white source exactly at every destination cell. -/
lemma bilinearSample_one_white (w h dx dy : ℕ) :
    bilinearSample (uniformSrc 1 1 255 255 255 255) 1 1 w h dx dy = (255, 255, 255, 255) := by
  simp only [bilinearSample]
  simp [readPixel_one_white]

lemma cubicWeight_b1 (x : ℝ) (h : |x| ≤ 1) :
    cubicWeight x = (3 / 2) * |x| ^ 3 - (5 / 2) * |x| ^ 2 + 1 := by
  simp only [cubicWeight]
  rw [if_pos h]
  ring

lemma cubicWeight_b2 (x : ℝ) (h1 : ¬ |x| ≤ 1) (h2 : |x| < 2) :
    cubicWeight x = -(1 / 2) * |x| ^ 3 + (5 / 2) * |x| ^ 2 - 4 * |x| + 2 := by
  simp only [cubicWeight]
  rw [if_neg h1, if_pos h2]
  ring

lemma cubicWeight_b3 (x : ℝ) (h1 : ¬ |x| ≤ 1) (h2 : ¬ |x| < 2) : cubicWeight x = 0 := by
  simp only [cubicWeight]
  rw [if_neg h1, if_neg h2]

/-- Catmull-Rom partition of unity: the four cubic weights of one axis sum
to exactly 1 for every fractional offset `f ∈ [0, 1)`. -/
lemma cubicSum_one (f : ℝ) (h0 : 0 ≤ f) (h1 : f < 1) :
    ((intRangeIncl (-1) 2).map (fun i : ℤ => cubicWeight ((i : ℝ) - f))).sum = 1 := by
  have hlist : intRangeIncl (-1) 2 = [-1, 0, 1, 2] := by decide
  rw [hlist]
  simp only [List.map_cons, List.map_nil, List.sum_cons, List.sum_nil, add_zero]
  push_cast
  rcases eq_or_lt_of_le h0 with hf0 | hf0
  · rw [← hf0]
    have e1 : |(-1 - 0 : ℝ)| = 1 := by norm_num
    have e2 : |(0 - 0 : ℝ)| = 0 := by norm_num
    have e3 : |(1 - 0 : ℝ)| = 1 := by norm_num
    have e4 : |(2 - 0 : ℝ)| = 2 := by norm_num
    rw [cubicWeight_b1 _ (by rw [e1]), cubicWeight_b1 _ (by rw [e2]; norm_num),
        cubicWeight_b1 _ (by rw [e3]), cubicWeight_b3 _ (by rw [e4]; norm_num) (by rw [e4]; norm_num)]
    rw [e1, e2, e3]
    ring
  · have a1 : |(-1 - f : ℝ)| = 1 + f := by
      rw [abs_of_nonpos (by linarith)]
      ring
    have a2 : |(0 - f : ℝ)| = f := by
      rw [abs_of_nonpos (by linarith)]
      ring
    have a3 : |(1 - f : ℝ)| = 1 - f := abs_of_nonneg (by linarith)
    have a4 : |(2 - f : ℝ)| = 2 - f := abs_of_nonneg (by linarith)
    rw [cubicWeight_b2 _ (by rw [a1]; linarith) (by rw [a1]; linarith),
        cubicWeight_b1 _ (by rw [a2]; linarith),
        cubicWeight_b1 _ (by rw [a3]; linarith),
        cubicWeight_b2 _ (by rw [a4]; linarith) (by rw [a4]; linarith)]
    rw [a1, a2, a3, a4]
    ring

lemma intRangeIncl_six (m : ℤ) :
    intRangeIncl (m - 2) (m + 3) = [m - 2, m - 1, m, m + 1, m + 2, m + 3] := by
  unfold intRangeIncl
  rw [show m + 3 + 1 - (m - 2) = 6 by ring, show ((6 : ℤ)).toNat = 6 from rfl]
  simp [List.range_succ]
  omega

/-- The Lanczos axis weight sum (over the six taps of the source loop) is
strictly positive for every sample coordinate. -/
lemma lanczos_axis_sum_pos (s : ℝ) :
    0 < ((intRangeIncl (⌊s⌋ - 3 + 1) (⌊s⌋ + 3)).map
      (fun x : ℤ => sinc (s - (x : ℝ)) * sinc ((s - (x : ℝ)) / 3))).sum := by
  have hlist : intRangeIncl (⌊s⌋ - 3 + 1) (⌊s⌋ + 3)
      = [⌊s⌋ - 2, ⌊s⌋ - 1, ⌊s⌋, ⌊s⌋ + 1, ⌊s⌋ + 2, ⌊s⌋ + 3] := by
    rw [show ⌊s⌋ - 3 + 1 = ⌊s⌋ - 2 by ring]
    exact intRangeIncl_six ⌊s⌋
  rw [hlist]
  simp only [List.map_cons, List.map_nil, List.sum_cons, List.sum_nil, add_zero]
  have e1 : s - ((⌊s⌋ - 2 : ℤ) : ℝ) = Int.fract s + 2 := by
    rw [Int.fract]
    push_cast
    ring
  have e2 : s - ((⌊s⌋ - 1 : ℤ) : ℝ) = Int.fract s + 1 := by
    rw [Int.fract]
    push_cast
    ring
  have e3 : s - ((⌊s⌋ : ℤ) : ℝ) = Int.fract s := by
    rw [Int.fract]
  have e4 : s - ((⌊s⌋ + 1 : ℤ) : ℝ) = Int.fract s - 1 := by
    rw [Int.fract]
    push_cast
    ring
  have e5 : s - ((⌊s⌋ + 2 : ℤ) : ℝ) = Int.fract s - 2 := by
    rw [Int.fract]
    push_cast
    ring
  have e6 : s - ((⌊s⌋ + 3 : ℤ) : ℝ) = Int.fract s - 3 := by
    rw [Int.fract]
    push_cast
    ring
  rw [e1, e2, e3, e4, e5, e6]
  have hsum := lanczos_six_sum_pos (Int.fract s) (Int.fract_nonneg s) (Int.fract_lt_one s)
  unfold LW at hsum
  linarith

lemma boxTaps_one_nonempty (w h dx dy : ℕ) (hw : 1 ≤ w) (hh : 1 ≤ h) (hx : dx < w)
    (hy : dy < h) : (boxTaps 1 1 w h dx dy).length ≠ 0 := by
  have hwp : (0 : ℝ) < w := by
    have : (1 : ℝ) ≤ w := by exact_mod_cast hw
    linarith
  have hhp : (0 : ℝ) < h := by
    have : (1 : ℝ) ≤ h := by exact_mod_cast hh
    linarith
  have hx0 : ⌊(dx : ℝ) * (((1 : ℕ) : ℝ) / ((w : ℕ) : ℝ))⌋ = 0 := by
    rw [Int.floor_eq_zero_iff, Set.mem_Ico]
    constructor
    · positivity
    · push_cast
      rw [mul_one_div, div_lt_one hwp]
      exact_mod_cast hx
  have hy0 : ⌊(dy : ℝ) * (((1 : ℕ) : ℝ) / ((h : ℕ) : ℝ))⌋ = 0 := by
    rw [Int.floor_eq_zero_iff, Set.mem_Ico]
    constructor
    · positivity
    · push_cast
      rw [mul_one_div, div_lt_one hhp]
      exact_mod_cast hy
  have hx1 : (1 : ℤ) ≤ ⌈((dx : ℝ) + 1) * (((1 : ℕ) : ℝ) / ((w : ℕ) : ℝ))⌉ := by
    have hpos : (0 : ℝ) < ((dx : ℝ) + 1) * (((1 : ℕ) : ℝ) / ((w : ℕ) : ℝ)) := by positivity
    exact Int.ceil_pos.mpr hpos
  have hy1 : (1 : ℤ) ≤ ⌈((dy : ℝ) + 1) * (((1 : ℕ) : ℝ) / ((h : ℕ) : ℝ))⌉ := by
    have hpos : (0 : ℝ) < ((dy : ℝ) + 1) * (((1 : ℕ) : ℝ) / ((h : ℕ) : ℝ)) := by positivity
    exact Int.ceil_pos.mpr hpos
  simp only [boxTaps, tapGrid_length, intRangeLt, List.length_map, List.length_range]
  rw [hx0, hy0]
  intro hcontra
  rcases Nat.mul_eq_zero.mp hcontra with hzero | hzero <;> omega

lemma boxSample_one_white (w h dx dy : ℕ) (hw : 1 ≤ w) (hh : 1 ≤ h) (hx : dx < w)
    (hy : dy < h) :
    boxSample (uniformSrc 1 1 255 255 255 255) 1 1 w h dx dy = (255, 255, 255, 255) := by
  apply boxSample_const
  · intro t ht c hc
    obtain ⟨ht1, ht2, ht3, ht4⟩ := boxTaps_mem_bounds ht
    have ht1z : t.1 = 0 := by
      have : t.1 < ((1 : ℕ) : ℤ) := ht2
      omega
    have ht2z : t.2 = 0 := by
      have : t.2 < ((1 : ℕ) : ℤ) := ht4
      omega
    have hidx0 : 0 ≤ (t.2 * ((1 : ℕ) : ℤ) + t.1) * 4 + (c : ℤ) := by
      rw [ht1z, ht2z]
      positivity
    have hidxlt : (t.2 * ((1 : ℕ) : ℤ) + t.1) * 4 + (c : ℤ) < 4 * (((1 : ℕ) : ℤ) * (1 : ℕ)) := by
      rw [ht1z, ht2z]
      have : (c : ℤ) < 4 := by exact_mod_cast hc
      push_cast
      linarith
    rw [premultF_uniform 1 1 255 255 255 _ hidx0 hidxlt]
    have hmod : ((t.2 * ((1 : ℕ) : ℤ) + t.1) * 4 + (c : ℤ)).toNat % 4 = c := by
      rw [ht1z, ht2z]
      omega
    rw [hmod]
    interval_cases c <;> simp
  · exact boxTaps_one_nonempty w h dx dy hw hh hx hy

lemma bicubicSample_one_white (w h dx dy : ℕ) :
    bicubicSample (uniformSrc 1 1 255 255 255 255) 1 1 w h dx dy = (255, 255, 255, 255) := by
  simp only [bicubicSample]
  simp only [readPixel_one_white _ _ 0 (by norm_num), readPixel_one_white _ _ 1 (by norm_num),
    readPixel_one_white _ _ 2 (by norm_num), readPixel_one_white _ _ 3 (by norm_num)]
  set sx : ℝ := ((dx : ℝ) + 0.5) * (((1 : ℕ) : ℝ) / ((w : ℕ) : ℝ)) - 0.5 with hsxdef
  set sy : ℝ := ((dy : ℝ) + 0.5) * (((1 : ℕ) : ℝ) / ((h : ℕ) : ℝ)) - 0.5 with hsydef
  have hxf0 : 0 ≤ sx - (⌊sx⌋ : ℝ) := by
    rw [Int.self_sub_floor]
    exact Int.fract_nonneg sx
  have hxf1 : sx - (⌊sx⌋ : ℝ) < 1 := by
    rw [Int.self_sub_floor]
    exact Int.fract_lt_one sx
  have hyf0 : 0 ≤ sy - (⌊sy⌋ : ℝ) := by
    rw [Int.self_sub_floor]
    exact Int.fract_nonneg sy
  have hyf1 : sy - (⌊sy⌋ : ℝ) < 1 := by
    rw [Int.self_sub_floor]
    exact Int.fract_lt_one sy
  have hW : ((tapGrid (intRangeIncl (-1) 2) (intRangeIncl (-1) 2)).map
      (fun t : ℤ × ℤ => cubicWeight ((t.1 : ℝ) - (sx - (⌊sx⌋ : ℝ)))
        * cubicWeight ((t.2 : ℝ) - (sy - (⌊sy⌋ : ℝ))))).sum = 1 := by
    have h := tapGrid_sum_prod (intRangeIncl (-1) 2) (intRangeIncl (-1) 2)
      (fun i : ℤ => cubicWeight ((i : ℝ) - (sx - (⌊sx⌋ : ℝ))))
      (fun j : ℤ => cubicWeight ((j : ℝ) - (sy - (⌊sy⌋ : ℝ))))
    rw [cubicSum_one _ hxf0 hxf1, cubicSum_one _ hyf0 hyf1] at h
    rw [show ((1 : ℝ) * 1) = 1 by norm_num] at h
    exact h
  have hacc : ((tapGrid (intRangeIncl (-1) 2) (intRangeIncl (-1) 2)).map
      (fun t : ℤ × ℤ => 255 * (cubicWeight ((t.1 : ℝ) - (sx - (⌊sx⌋ : ℝ)))
        * cubicWeight ((t.2 : ℝ) - (sy - (⌊sy⌋ : ℝ)))))).sum = 255 := by
    have h := List.sum_map_mul_left (tapGrid (intRangeIncl (-1) 2) (intRangeIncl (-1) 2))
      (fun t : ℤ × ℤ => cubicWeight ((t.1 : ℝ) - (sx - (⌊sx⌋ : ℝ)))
        * cubicWeight ((t.2 : ℝ) - (sy - (⌊sy⌋ : ℝ)))) 255
    rw [hW] at h
    rw [show (255 : ℝ) * 1 = 255 by norm_num] at h
    exact h
  rw [hW, hacc]
  norm_num

lemma lanczosSample_one_white (w h dx dy : ℕ) :
    lanczosSample (uniformSrc 1 1 255 255 255 255) 1 1 w h dx dy = (255, 255, 255, 255) := by
  simp only [lanczosSample]
  simp only [readPixel_one_white _ _ 0 (by norm_num), readPixel_one_white _ _ 1 (by norm_num),
    readPixel_one_white _ _ 2 (by norm_num), readPixel_one_white _ _ 3 (by norm_num)]
  set sx : ℝ := ((dx : ℝ) + 0.5) * (((1 : ℕ) : ℝ) / ((w : ℕ) : ℝ)) - 0.5 with hsxdef
  set sy : ℝ := ((dy : ℝ) + 0.5) * (((1 : ℕ) : ℝ) / ((h : ℕ) : ℝ)) - 0.5 with hsydef
  have hSx := lanczos_axis_sum_pos sx
  have hSy := lanczos_axis_sum_pos sy
  have hW : ((tapGrid (intRangeIncl (⌊sx⌋ - 3 + 1) (⌊sx⌋ + 3))
        (intRangeIncl (⌊sy⌋ - 3 + 1) (⌊sy⌋ + 3))).map
      (fun t : ℤ × ℤ => sinc (sx - (t.1 : ℝ)) * sinc ((sx - (t.1 : ℝ)) / 3)
        * (sinc (sy - (t.2 : ℝ)) * sinc ((sy - (t.2 : ℝ)) / 3)))).sum
      = ((intRangeIncl (⌊sx⌋ - 3 + 1) (⌊sx⌋ + 3)).map
          (fun x : ℤ => sinc (sx - (x : ℝ)) * sinc ((sx - (x : ℝ)) / 3))).sum
        * ((intRangeIncl (⌊sy⌋ - 3 + 1) (⌊sy⌋ + 3)).map
          (fun y : ℤ => sinc (sy - (y : ℝ)) * sinc ((sy - (y : ℝ)) / 3))).sum := by
    exact tapGrid_sum_prod _ _
      (fun x : ℤ => sinc (sx - (x : ℝ)) * sinc ((sx - (x : ℝ)) / 3))
      (fun y : ℤ => sinc (sy - (y : ℝ)) * sinc ((sy - (y : ℝ)) / 3))
  have hWpos : (0 : ℝ) < ((intRangeIncl (⌊sx⌋ - 3 + 1) (⌊sx⌋ + 3)).map
      (fun x : ℤ => sinc (sx - (x : ℝ)) * sinc ((sx - (x : ℝ)) / 3))).sum
        * ((intRangeIncl (⌊sy⌋ - 3 + 1) (⌊sy⌋ + 3)).map
      (fun y : ℤ => sinc (sy - (y : ℝ)) * sinc ((sy - (y : ℝ)) / 3))).sum :=
    mul_pos hSx hSy
  have hacc : ((tapGrid (intRangeIncl (⌊sx⌋ - 3 + 1) (⌊sx⌋ + 3))
        (intRangeIncl (⌊sy⌋ - 3 + 1) (⌊sy⌋ + 3))).map
      (fun t : ℤ × ℤ => 255 * (sinc (sx - (t.1 : ℝ)) * sinc ((sx - (t.1 : ℝ)) / 3)
        * (sinc (sy - (t.2 : ℝ)) * sinc ((sy - (t.2 : ℝ)) / 3))))).sum
      = 255 * (((intRangeIncl (⌊sx⌋ - 3 + 1) (⌊sx⌋ + 3)).map
          (fun x : ℤ => sinc (sx - (x : ℝ)) * sinc ((sx - (x : ℝ)) / 3))).sum
        * ((intRangeIncl (⌊sy⌋ - 3 + 1) (⌊sy⌋ + 3)).map
          (fun y : ℤ => sinc (sy - (y : ℝ)) * sinc ((sy - (y : ℝ)) / 3))).sum) := by
    have hml := List.sum_map_mul_left (tapGrid (intRangeIncl (⌊sx⌋ - 3 + 1) (⌊sx⌋ + 3))
        (intRangeIncl (⌊sy⌋ - 3 + 1) (⌊sy⌋ + 3)))
      (fun t : ℤ × ℤ => sinc (sx - (t.1 : ℝ)) * sinc ((sx - (t.1 : ℝ)) / 3)
        * (sinc (sy - (t.2 : ℝ)) * sinc ((sy - (t.2 : ℝ)) / 3))) 255
    rw [hW] at hml
    exact hml
  rw [hW, hacc]
  rw [if_neg (ne_of_gt hWpos)]
  rw [mul_div_assoc, div_self (ne_of_gt hWpos), mul_one]

/-- **C2, amended.**  In the current (ImageImportModal) revision, upscaling
the 1×1 fully-opaque white source to any `w×h` target yields fully-opaque
white at every destination pixel for all four algorithms.  (The claim as
stated also covers the superseded App.tsx `bilinearSample`, where it fails —
see the counterexample.) -/
theorem white_upscale_identity (mode : ScalingAlgorithm) (w h dx dy c : ℕ)
    (hw : 1 ≤ w) (hh : 1 ≤ h) (hx : dx < w) (hy : dy < h) (hc : c < 4) :
    (resample (uniformSrc 1 1 255 255 255 255) 1 1 w h mode).getD (4 * (dy * w + dx) + c) 0
      = 255 := by
  rw [resample_getD _ 1 1 w h mode dx dy c hx hy hc]
  have hs : sampleAt mode (uniformSrc 1 1 255 255 255 255) 1 1 w h dx dy
      = (255, 255, 255, 255) := by
    cases mode
    · exact boxSample_one_white w h dx dy hw hh hx hy
    · exact bilinearSample_one_white w h dx dy
    · exact bicubicSample_one_white w h dx dy
    · exact lanczosSample_one_white w h dx dy
  rw [hs]
  have h255 : setPixelChannels ((255 : ℝ), (255 : ℝ), (255 : ℝ), (255 : ℝ))
      = [255, 255, 255, 255] := by
    have h := setPixelChannels_opaque 255 255 255 (by omega) (by omega) (by omega)
    simpa using h
  rw [h255]
  interval_cases c <;> rfl

/-- **C2, amended witness.**  Lanczos upscale of the 1×1 white source to
3×2, pixel `(2,1)`, alpha channel: the stored byte is 255. -/
theorem white_upscale_identity_witness :
    (resample (uniformSrc 1 1 255 255 255 255) 1 1 3 2 ScalingAlgorithm.lanczos).getD
      (4 * (1 * 3 + 2) + 3) 0 = 255 :=
  white_upscale_identity ScalingAlgorithm.lanczos 3 2 2 1 3 (by decide) (by decide)
    (by decide) (by decide) (by decide)

end WebUtils
